import Mathlib

/-!
Verification development for the agonda-cli validation and
primitive-version-resolution engine.

The JavaScript sources (`src/lib/registry.js`, `src/lib/primitives.js`,
`src/lib/validate.js`, `src/lib/validate-marketplace.js`) are shallowly
embedded:

* machine state (the filesystem) is passed explicitly as a finite map
  from segment paths to file contents;
* JSON documents are modelled by an inductive `JVal`; a file is either a
  parseable JSON document (`FileData.json`) or raw unparseable text
  (`FileData.text`);
* the remote registry (the `gh` CLI, the tag listing and tarball
  endpoints) is modelled as an explicit environment `Registry`, fixed per
  process run — faithful to the process-lifetime tag cache;
* fallible code returns `Except JErr`.
-/

set_option maxRecDepth 4000

namespace Agonda

/-- Error kinds thrown by the CLI (`src/utils/errors.js`): `NotFoundError`,
`NetworkError`, plus JavaScript runtime `TypeError`/JSON-parse errors that
escape uncaught. -/
inductive JErr where
  | notFound (msg : String)
  | network (msg : String)
  | typeError (msg : String)
  | parseError (msg : String)
  | ioError (msg : String)
deriving DecidableEq, Repr

/-- A JSON value as produced by `JSON.parse`.  Numbers are modelled as
integers (no claim inspects fractional numeric leaves). Object fields keep
insertion order, as JavaScript objects do. -/
inductive JVal where
  | null
  | bool (b : Bool)
  | num (n : Int)
  | str (s : String)
  | arr (elems : List JVal)
  | obj (fields : List (String × JVal))

/-- JavaScript property read `v[k]`.  Returns `none` for "undefined".
Reading a property of `null` throws a `TypeError` (modelled by the caller
where the source can actually reach it). -/
def jGet (v : JVal) (k : String) : Option JVal :=
  match v with
  | .obj fields => (fields.find? (fun f => f.1 == k)).map (fun f => f.2)
  | _ => none

/-- JavaScript property write `v[k] = x` on an object: replaces the value
in place if the key exists (keeping its position), otherwise appends. -/
def jSetFields (fields : List (String × JVal)) (k : String) (x : JVal) :
    List (String × JVal) :=
  if fields.any (fun f => f.1 == k) then
    fields.map (fun f => if f.1 == k then (k, x) else f)
  else fields ++ [(k, x)]

/-- JavaScript truthiness of a JSON value. -/
def jTruthy (v : JVal) : Bool :=
  match v with
  | .null => false
  | .bool b => b
  | .num n => n != 0
  | .str s => s != ""
  | .arr _ => true
  | .obj _ => true

/-- The content of one file.  `json v` stands for any byte string that
`JSON.parse` turns into `v`; `text s` stands for the raw bytes `s` of a
file that is not valid JSON (or is never parsed). -/
inductive FileData where
  | json (v : JVal)
  | text (s : String)

/-- The filesystem: a finite association list from paths (lists of
segments, as produced by `path.join`) to file contents.  Directories are
implicit: a directory exists when some file lives at or below its path. -/
structure FS where
  files : List (List String × FileData)

/-- `fs.readFileSync(p)` for a present file, `none` when no file has
exactly path `p`. -/
def readFileF (fs : FS) (p : List String) : Option FileData :=
  (fs.files.find? (fun e => e.1 == p)).map (fun e => e.2)

/-- `existsSync(p)`: the path is a file, or a directory containing some
file. -/
def existsSyncF (fs : FS) (p : List String) : Bool :=
  fs.files.any (fun e => p.isPrefixOf e.1)

/-- `writeFileSync(p, d)`: replace the content at `p`, or create the
file. -/
def writeFileF (fs : FS) (p : List String) (d : FileData) : FS :=
  if fs.files.any (fun e => e.1 == p) then
    ⟨fs.files.map (fun e => if e.1 == p then (p, d) else e)⟩
  else ⟨fs.files ++ [(p, d)]⟩

/-- `rmSync(p, { recursive: true, force: true })`: drop every file at or
below `p`. -/
def rmRecF (fs : FS) (p : List String) : FS :=
  ⟨fs.files.filter (fun e => !(p.isPrefixOf e.1))⟩

/-- `renameSync(src, dst)`: move the subtree rooted at `src` to `dst`. -/
def renameF (fs : FS) (src dst : List String) : FS :=
  ⟨fs.files.map (fun e =>
    if src.isPrefixOf e.1 then (dst ++ e.1.drop src.length, e.2) else e)⟩

/-! ## Registry client (`src/lib/registry.js`) -/

/-- One entry of the GitHub tag listing: `{ name, sha }`. -/
structure Tag where
  name : String
  sha : String
deriving DecidableEq, Repr

/-- The remote registry as observed by one process run.  `fetchTags` is
the (cached, hence constant) outcome of listing all tags: either the full
listing or the `NetworkError`/`NotFoundError` raised by `ghApi`.
`tarball tagRef` is the outcome of the piped `gh api .../tarball | tar`
extraction: the relative paths it materializes below the target
directory, or the failure message of the shell pipeline. -/
structure Registry where
  fetchTags : Except JErr (List Tag)
  tarball : String → Except String (List (List String × FileData))

/-- The constant `REPO` from registry.js. -/
def REPO : String := "alavida-ai/skills"

/-- A JavaScript line terminator — the characters `.` does not match. -/
def isLineTerm (c : Char) : Bool :=
  c = '\n' ∨ c = '\r' ∨ c = '\u2028' ∨ c = '\u2029'

/-- The `\d+\.\d+\.\d+.*` part of the tag regex, on the characters after
the literal `v`.  (`.*` imposes no constraint beyond the absence of line
terminators, which `parseTag` checks globally.) -/
def versionShape (cs : List Char) : Bool :=
  if (cs.takeWhile Char.isDigit).isEmpty then false else
  match cs.dropWhile Char.isDigit with
  | '.' :: r2 =>
    if (r2.takeWhile Char.isDigit).isEmpty then false else
    (match r2.dropWhile Char.isDigit with
     | '.' :: r4 => !(r4.takeWhile Char.isDigit).isEmpty
     | _ => false)
  | _ => false

/-- A split with a one-character name: accept when the remainder is
`'/' :: 'v' :: r` with `r` of version shape. -/
def tagSplitBase (c : Char) (rest : List Char) : Option (List Char × List Char) :=
  match rest with
  | '/' :: 'v' :: r => if versionShape r then some ([c], r) else none
  | _ => none

/-- Locate the split point chosen by the greedy group `(.+)` of
`/^(.+)\/v(\d+\.\d+\.\d+.*)$/`: the rightmost decomposition
`name ++ "/v" ++ rest` with `name` nonempty and `rest` of version shape.
Recursing first prefers the split with the longest name. -/
def tagSplit : List Char → Option (List Char × List Char)
  | [] => none
  | c :: rest =>
    match tagSplit rest with
    | some (p, v) => some (c :: p, v)
    | none => tagSplitBase c rest

/-- `parseTag(tagName)`: `tagName.match(/^(.+)\/v(\d+\.\d+\.\d+.*)$/)`,
yielding `{ primitive, version }` or `null`. -/
def parseTag (tagName : String) : Option (String × String) :=
  if tagName.data.any isLineTerm then none
  else
    match tagSplit tagName.data with
    | some (p, v) => some (String.mk p, String.mk v)
    | none => none

/-- Decimal value of a digit-character list. -/
def digitsVal (cs : List Char) : Nat :=
  cs.foldl (fun n c => n * 10 + (c.toNat - 48)) 0

/-- Whitespace-trim on the character list (the model of `String.trim` and
of the whitespace tolerance of JavaScript `Number`). -/
def trimChars (cs : List Char) : List Char :=
  ((cs.dropWhile Char.isWhitespace).reverse.dropWhile Char.isWhitespace).reverse

/-- Models the JavaScript expression `Number(s) || 0` applied to one
dot-separated version component: the exact integer for an (optionally
signed, whitespace-padded) decimal digit string, `0` for the empty string
and for every string `Number` maps to `NaN`.  Exotic numeric literal
forms (hex, exponents, fractions, `Infinity`) never arise from version
components and are not modelled. -/
def jsNumOr0 (s : String) : Int :=
  match trimChars s.data with
  | [] => 0
  | '-' :: ds => if !ds.isEmpty && ds.all Char.isDigit then -(digitsVal ds : Int) else 0
  | '+' :: ds => if !ds.isEmpty && ds.all Char.isDigit then (digitsVal ds : Int) else 0
  | ds => if ds.all Char.isDigit then (digitsVal ds : Int) else 0

/-- `s.split(sep)` for a one-character separator, on the character
list. -/
def splitCharAux (sep : Char) : List Char → List Char → List String
  | [], acc => [String.mk acc.reverse]
  | c :: rest, acc =>
    if c = sep then String.mk acc.reverse :: splitCharAux sep rest []
    else splitCharAux sep rest (c :: acc)

/-- Component `i` of a version string as compared by `compareSemver`:
`(a.split('.').map(Number)[i] || 0)` — a missing component reads as 0. -/
def semverComp (a : String) (i : Nat) : Int :=
  jsNumOr0 ((splitCharAux '.' a.data []).getD i "")

/-- `compareSemver(a, b)` from registry.js: compare the first three
dot-separated components numerically, returning the first nonzero
difference. -/
def compareSemver (a b : String) : Int :=
  if semverComp a 0 ≠ semverComp b 0 then semverComp a 0 - semverComp b 0
  else if semverComp a 1 ≠ semverComp b 1 then semverComp a 1 - semverComp b 1
  else if semverComp a 2 ≠ semverComp b 2 then semverComp a 2 - semverComp b 2
  else 0

/-- The comparator handed to `Array.prototype.sort` in `getAllVersions`:
`(a, b) => compareSemver(b, a)`, i.e. descending.  `x` may stay before
`y` exactly when the comparator is ≤ 0 on `(x, y)`. -/
def descRel (x y : String) : Prop := compareSemver y x ≤ 0

instance : DecidableRel descRel :=
  fun x y => inferInstanceAs (Decidable (compareSemver y x ≤ 0))

/-- `getAllVersions(primitiveName)`: parse every cached tag, keep the
versions whose primitive name matches, sort descending by
`compareSemver` (JavaScript's sort is stable; a stable sort by the
comparator is modelled by `List.insertionSort`). -/
def getAllVersions (reg : Registry) (primitiveName : String) :
    Except JErr (List String) := do
  let tags ← reg.fetchTags
  pure (List.insertionSort descRel
    ((((tags.map (fun t => parseTag t.name)).filterMap id).filter
      (fun p => p.1 == primitiveName)).map (fun p => p.2)))

/-- `getLatestVersion(primitiveName)`: first element of the descending
listing, or `null`. -/
def getLatestVersion (reg : Registry) (primitiveName : String) :
    Except JErr (Option String) := do
  let versions ← getAllVersions reg primitiveName
  pure versions.head?

/-- `downloadPrimitive(primitiveName, version, targetDir)`: refuse with a
`NotFoundError` unless the exact tag `name/vVersion` is in the cached
listing; otherwise run the tarball extraction, which on success writes
its entries below `targetDir` and on failure raises a `NetworkError`. -/
def downloadPrimitive (reg : Registry) (primitiveName version : String)
    (targetDir : List String) (fs : FS) : Except JErr FS := do
  let tagRef := primitiveName ++ "/v" ++ version
  let tags ← reg.fetchTags
  if !(tags.any (fun t => t.name == tagRef)) then
    throw (.notFound
      ("Tag \"" ++ tagRef ++ "\" not found in " ++ REPO ++ "."))
  else
    -- mkdirSync(targetDir): directory creation is implicit in this model
    match reg.tarball tagRef with
    | .error msg =>
      throw (.network ("Failed to download " ++ primitiveName ++ "@" ++
        version ++ ": " ++ msg))
    | .ok entries =>
      pure (entries.foldl (fun f e => writeFileF f (targetDir ++ e.1) e.2) fs)

/-! ## Primitive resolver and installer (`src/lib/primitives.js`) -/

/-- `s.replace(/^v/, '')` — strip one leading `v`. -/
def stripV (s : String) : String :=
  match s.data with
  | 'v' :: rest => String.mk rest
  | _ => s

/-- A workbench as handed to the primitives API by the context resolver:
the parsed `workbench.json` pin map (`config.primitives || {}`, as ordered
string pairs — JavaScript object keys are distinct) plus location data. -/
structure WorkbenchInfo where
  name : String
  relativePath : String
  path : List String
  primitives : List (String × String)

/-- One row of `checkWorkbenchPrimitives` output. -/
structure PrimStatus where
  name : String
  pinned : String
  latest : String
  status : String

/-- `checkWorkbenchPrimitives` output. -/
structure CheckResult where
  workbench : String
  path : String
  primitives : List PrimStatus

/-- One iteration of the `checkWorkbenchPrimitives` loop: try
`getLatestVersion`; a registry failure is caught and classified UNKNOWN;
`if (latest)` guards the CURRENT/BEHIND comparison; the reported latest is
`latest || 'unknown'`. -/
def checkPrim (reg : Registry) (primName pinnedVersion : String) : PrimStatus :=
  let cleanPinned := stripV pinnedVersion
  match getLatestVersion reg primName with
  | .error _ =>
    { name := primName, pinned := cleanPinned, latest := "unknown",
      status := "UNKNOWN" }
  | .ok (some l) =>
    if l ≠ "" then
      { name := primName, pinned := cleanPinned, latest := l,
        status := if compareSemver cleanPinned l ≥ 0 then "CURRENT" else "BEHIND" }
    else
      { name := primName, pinned := cleanPinned, latest := "unknown",
        status := "UNKNOWN" }
  | .ok none =>
    { name := primName, pinned := cleanPinned, latest := "unknown",
      status := "UNKNOWN" }

/-- `checkWorkbenchPrimitives(workbenchInfo)`. -/
def checkWorkbenchPrimitives (reg : Registry) (wb : WorkbenchInfo) : CheckResult :=
  { workbench := wb.name, path := wb.relativePath,
    primitives := wb.primitives.map (fun kv => checkPrim reg kv.1 kv.2) }

/-- The `action` field of an install action record. -/
inductive ActKind where
  | skipped
  | would_install
  | would_update
  | installed
  | updated
  | failed
deriving DecidableEq, Repr

/-- One entry of the `actions` array built by `installPrimitives`.
`fromV` models the optional `from` property (`none` = property absent,
`some x` = property present with value `x`, where the inner `none` is
JavaScript `null`). -/
structure Action where
  name : String
  action : ActKind
  version : String
  fromV : Option (Option String) := none
  reason : Option String := none

/-- `err.message`. -/
def JErr.message : JErr → String
  | .notFound m => m
  | .network m => m
  | .typeError m => m
  | .parseError m => m
  | .ioError m => m

mutual

/-- Canonical byte rendering of a JSON value; used only where the model
must read a `FileData.json` file as raw text (the raw formatting of such
a file is not tracked by the model). -/
def jserialize : JVal → String
  | .null => "null"
  | .bool b => cond b "true" "false"
  | .num n => toString n
  | .str s => "\"" ++ s ++ "\""
  | .arr es => "[" ++ jserializeArr es ++ "]"
  | .obj fs => "\x7b" ++ jserializeObj fs ++ "\x7d"

def jserializeArr : List JVal → String
  | [] => ""
  | [e] => jserialize e
  | e :: es => jserialize e ++ "," ++ jserializeArr es

def jserializeObj : List (String × JVal) → String
  | [] => ""
  | [f] => "\"" ++ f.1 ++ "\":" ++ jserialize f.2
  | f :: fs => "\"" ++ f.1 ++ "\":" ++ jserialize f.2 ++ "," ++ jserializeObj fs
end

/-- The bytes `readFileSync(p, 'utf-8')` returns for a file. -/
def fileBytes : FileData → String
  | .text s => s
  | .json v => jserialize v

/-- `detectInstalledVersion(skillDir)`: return the trimmed content of the
`.primitive-version` marker if it exists, else `null`.  A marker path
that exists only as a directory makes `readFileSync` raise EISDIR. -/
def detectInstalledVersion (fs : FS) (skillDir : List String) :
    Except JErr (Option String) :=
  let markerPath := skillDir ++ [".primitive-version"]
  if existsSyncF fs markerPath then
    match readFileF fs markerPath with
    | some d => pure (some (String.mk (trimChars (fileBytes d).data)))
    | none => throw (.ioError "EISDIR: illegal operation on a directory, read")
  else pure none

/-- The `installPrimitives` options object. -/
structure InstallOpts where
  update : Bool := false
  dryRun : Bool := false

/-- The `--update` pin bump loop: each pin whose latest version resolves
(truthily) is replaced by `v<latest>`; a pin whose latest cannot be
resolved (registry failure, or no matching tag) keeps its value. -/
def bumpPins (reg : Registry) (pins : List (String × String)) :
    List (String × String) :=
  pins.map (fun kv =>
    match getLatestVersion reg kv.1 with
    | .ok (some latest) => if latest ≠ "" then (kv.1, "v" ++ latest) else kv
    | _ => kv)

/-- One iteration of the install loop of `installPrimitives` for the pin
`(primName, pinnedVersion)`.  The temporary directory
`agonda-install-<name>-<Date.now()>` is modelled without the timestamp:
it is removed again in the `finally` step of the same iteration, so the
timestamp only guards against stale leftovers of crashed runs.  A failed
tarball extraction is modelled as writing nothing. -/
def installStep (reg : Registry) (wbPath : List String) (dryRun : Bool)
    (fs : FS) (primName pinnedVersion : String) :
    Except JErr (FS × Action) := do
  let cleanVersion := stripV pinnedVersion
  let skillDir := wbPath ++ ["skills", primName]
  let installed ← (if existsSyncF fs skillDir then
    detectInstalledVersion fs skillDir else pure none)
  if installed = some cleanVersion then
    pure (fs, { name := primName, action := .skipped, version := cleanVersion,
                reason := some "already installed" })
  else if dryRun then
    pure (fs, { name := primName,
                action := if installed.isSome then .would_update else .would_install,
                version := cleanVersion, fromV := some installed })
  else
    let tmpDir := ["tmp", "agonda-install-" ++ primName]
    let step : FS × Action :=
      match downloadPrimitive reg primName cleanVersion tmpDir fs with
      | .error err =>
        (fs, { name := primName, action := ActKind.failed, version := cleanVersion,
               reason := some err.message })
      | .ok fsD =>
        let downloadedDir := tmpDir ++ [primName]
        if !(existsSyncF fsD downloadedDir) then
          (fsD, { name := primName, action := ActKind.failed, version := cleanVersion,
                  reason := some "download produced no files" })
        else
          -- remove existing and move new into place
          let fsA := if existsSyncF fsD skillDir then rmRecF fsD skillDir else fsD
          -- mkdirSync(dirname(skillDir)) is implicit in the file-map model
          let fsB := renameF fsA downloadedDir skillDir
          -- write version marker
          let fsC := writeFileF fsB (skillDir ++ [".primitive-version"])
            (.text cleanVersion)
          (fsC, { name := primName,
                  action := if installed.isSome then ActKind.updated else ActKind.installed,
                  version := cleanVersion, fromV := some installed })
    -- finally: always clean up the temporary directory
    let fs2 := if existsSyncF step.1 tmpDir then rmRecF step.1 tmpDir else step.1
    pure (fs2, step.2)

/-- The `for (const [primName, pinnedVersion] of Object.entries(pins))`
loop of `installPrimitives`, accumulating the `actions` array. -/
def installLoop (reg : Registry) (wbPath : List String) (dryRun : Bool) :
    List (String × String) → FS → List Action → Except JErr (FS × List Action)
  | [], fs, acts => pure (fs, acts)
  | kv :: rest, fs, acts => do
    let r ← installStep reg wbPath dryRun fs kv.1 kv.2
    installLoop reg wbPath dryRun rest r.1 (acts ++ [r.2])

/-- `installPrimitives` return value. -/
structure InstallResult where
  workbench : String
  path : String
  actions : List Action

/-- `installPrimitives(workbenchInfo, { update, dryRun })`: optionally
bump every pin to its registry-latest, run the install loop, and — when
`update` was requested on a real run — re-read `workbench.json`, replace
its `primitives` property with the bumped pins, and write it back.  A
missing or malformed manifest at that final step raises, as
`readFileSync`/`JSON.parse` do; property assignment on a non-object
raises a `TypeError` (on an array it is silently dropped by
`JSON.stringify`). -/
def installPrimitives (reg : Registry) (wb : WorkbenchInfo)
    (opts : InstallOpts) (fs : FS) : Except JErr (FS × InstallResult) := do
  if wb.primitives.isEmpty then
    pure (fs, { workbench := wb.name, path := wb.relativePath, actions := [] })
  else
    let pins := if opts.update then bumpPins reg wb.primitives else wb.primitives
    let r ← installLoop reg wb.path opts.dryRun pins fs []
    if opts.update && !opts.dryRun then
      let wbJsonPath := wb.path ++ ["workbench.json"]
      match readFileF r.1 wbJsonPath with
      | some (.json (.obj fields)) =>
        let newObj := JVal.obj (jSetFields fields "primitives"
          (.obj (pins.map (fun kv => (kv.1, JVal.str kv.2)))))
        pure (writeFileF r.1 wbJsonPath (.json newObj),
          { workbench := wb.name, path := wb.relativePath, actions := r.2 })
      | some (.json (.arr es)) =>
        pure (writeFileF r.1 wbJsonPath (.json (.arr es)),
          { workbench := wb.name, path := wb.relativePath, actions := r.2 })
      | some (.json _) =>
        throw (.typeError "Cannot create property 'primitives' on a primitive value")
      | some (.text _) =>
        throw (.parseError "Unexpected token in JSON")
      | none =>
        throw (.ioError "ENOENT: no such file or directory, open 'workbench.json'")
    else
      pure (r.1, { workbench := wb.name, path := wb.relativePath, actions := r.2 })

/-- The string form of an action kind, as compared by
`updatePrimitive`'s `installAction?.action || 'updated'`. -/
def actKindStr : ActKind → String
  | .skipped => "skipped"
  | .would_install => "would_install"
  | .would_update => "would_update"
  | .installed => "installed"
  | .updated => "updated"
  | .failed => "failed"

/-- One entry of `updatePrimitive`'s `results` array. -/
structure UpdateEntry where
  workbench : String
  path : String
  action : String
  name : String
  fromV : String
  toV : String

/-- `updatePrimitive` return value. -/
structure UpdateResult where
  primitive : String
  latest : Option String := none
  error : Option String := none
  results : List UpdateEntry

/-- String entries of a JSON object, `none` if any value is not a
string. -/
def objStrEntries (fields : List (String × JVal)) :
    Option (List (String × String)) :=
  fields.mapM (fun f =>
    match f.2 with
    | .str s => some (f.1, s)
    | _ => none)

/-- The per-workbench loop of `updatePrimitive`: skip workbenches that do
not pin the primitive; report `current` when the pin is at-or-above
latest; on a dry run report `would_update`; otherwise rewrite the pin in
`workbench.json` on disk and invoke `installPrimitives` on the updated
config, mirroring the installer's action. -/
def updateLoop (reg : Registry) (primitiveName latest : String) (dryRun : Bool) :
    List WorkbenchInfo → FS → List UpdateEntry → Except JErr (FS × List UpdateEntry)
  | [], fs, res => pure (fs, res)
  | wb :: rest, fs, res =>
    match wb.primitives.find? (fun kv => kv.1 == primitiveName) with
    | none => updateLoop reg primitiveName latest dryRun rest fs res
    | some kv => do
      let currentPin := stripV kv.2
      if compareSemver currentPin latest ≥ 0 then
        updateLoop reg primitiveName latest dryRun rest fs (res ++
          [{ workbench := wb.name, path := wb.relativePath, action := "current",
             name := primitiveName, fromV := currentPin, toV := latest }])
      else if dryRun then
        updateLoop reg primitiveName latest dryRun rest fs (res ++
          [{ workbench := wb.name, path := wb.relativePath, action := "would_update",
             name := primitiveName, fromV := currentPin, toV := latest }])
      else
        -- update pin in workbench.json
        let wbJsonPath := wb.path ++ ["workbench.json"]
        match readFileF fs wbJsonPath with
        | some (.json (.obj fields)) =>
          (match jGet (.obj fields) "primitives" with
          | some (.obj pinFields) => do
            let newPins := jSetFields pinFields primitiveName (.str ("v" ++ latest))
            let newObj := JVal.obj (jSetFields fields "primitives" (.obj newPins))
            let fs1 := writeFileF fs wbJsonPath (.json newObj)
            -- re-install at new version with config := the updated wbJson
            match objStrEntries newPins with
            | some pinPairs => do
              let ir ← installPrimitives reg
                { wb with primitives := pinPairs }
                { update := false, dryRun := false } fs1
              let act :=
                match ir.2.actions.find? (fun a => a.name == primitiveName) with
                | some a => actKindStr a.action
                | none => "updated"
              updateLoop reg primitiveName latest dryRun rest ir.1 (res ++
                [{ workbench := wb.name, path := wb.relativePath, action := act,
                   name := primitiveName, fromV := currentPin, toV := latest }])
            | none => throw (.typeError "pinnedVersion.replace is not a function")
          | _ => throw (.typeError
              "Cannot set properties of undefined (setting 'primitives')"))
        | some (.json _) =>
          throw (.typeError "Cannot read properties of the manifest value")
        | some (.text _) => throw (.parseError "Unexpected token in JSON")
        | none =>
          throw (.ioError "ENOENT: no such file or directory, open 'workbench.json'")

/-- `updatePrimitive(primitiveName, workbenches, { dryRun })`: resolve the
registry-latest once (uncaught — a registry failure propagates),
short-circuit with `not_found` when the primitive is unknown, then run
the per-workbench loop. -/
def updatePrimitive (reg : Registry) (primitiveName : String)
    (workbenches : List WorkbenchInfo) (dryRun : Bool) (fs : FS) :
    Except JErr (FS × UpdateResult) := do
  let latest ← getLatestVersion reg primitiveName
  match latest with
  | none =>
    pure (fs, { primitive := primitiveName, error := some "not_found", results := [] })
  | some l =>
    if l = "" then
      pure (fs, { primitive := primitiveName, error := some "not_found", results := [] })
    else do
      let r ← updateLoop reg primitiveName l dryRun workbenches fs []
      pure (r.1, { primitive := primitiveName, latest := some l, results := r.2 })

/-! ## Structural validator, mcpServers rule (`src/lib/validate.js`) -/

/-- `path.resolve(base, s)`: an absolute path replaces the base;
otherwise the segments of `s` are appended, with empty and `.` segments
dropped and `..` segments popping. -/
def resolvePath (base : List String) (s : String) : List String :=
  let segs := (splitCharAux '/' s.data []).filter (fun seg => seg ≠ "" ∧ seg ≠ ".")
  let start := match s.data with
    | '/' :: _ => []
    | _ => base
  segs.foldl (fun acc seg => if seg = ".." then acc.dropLast else acc ++ [seg]) start

/-- The errors `validateMcpServerEntries` contributes for one
`name → config` entry: the config must be a (non-array, non-null) object
and must carry exactly one of `command` and `url`. -/
def mcpEntryErrs (contextPath : String) (kv : String × JVal) : List String :=
  match kv.2 with
  | .obj cfgFields =>
    let hasCommand := cfgFields.any (fun f => f.1 == "command")
    let hasUrl := cfgFields.any (fun f => f.1 == "url")
    (if !hasCommand && !hasUrl then
      [contextPath ++ ": mcpServer \"" ++ kv.1 ++
        "\" must have either \"command\"+\"args\" (stdio) or \"url\" (HTTP)"]
     else []) ++
    (if hasCommand && hasUrl then
      [contextPath ++ ": mcpServer \"" ++ kv.1 ++
        "\" has both \"command\" and \"url\" — use one format, not both"]
     else [])
  | _ => [contextPath ++ ": mcpServer \"" ++ kv.1 ++ "\" must be an object"]

/-- `validateMcpServerEntries(servers, contextPath, errors)` from
src/lib/validate.js. -/
def validateMcpServerEntries (servers : List (String × JVal))
    (contextPath : String) : List String :=
  servers.flatMap (mcpEntryErrs contextPath)

/-- The `mcpServers` section of `validateWorkbench`
(src/lib/validate.js, the `pluginJson.mcpServers !== undefined` block):
the errors this check contributes.  A `null` value reaches
`Object.entries(null)`, whose TypeError the enclosing try/catch converts
into a "plugin.json is not valid JSON" error; a JSON file that is `null`
raises on the `.mcpServers` read inside the inner try/catch.  The text of
a V8 JSON parse error is modelled by the fixed string
"Unexpected token in JSON". -/
def mcpServersErrors (fs : FS) (wbPath : List String) (relPath : String)
    (mcpServers : Option JVal) : List String :=
  match mcpServers with
  | none => []
  | some (.str s) =>
    let pluginDir := wbPath ++ [".claude-plugin"]
    let mcpPath := resolvePath pluginDir s
    if !(existsSyncF fs mcpPath) then
      [relPath ++ ": mcpServers references non-existent file: " ++ s]
    else
      (match readFileF fs mcpPath with
      | some (.json .null) =>
        [relPath ++ ": " ++ s ++
          " is not valid JSON — Cannot read properties of null (reading 'mcpServers')"]
      | some (.json mcpJson) =>
        (match jGet mcpJson "mcpServers" with
        | some (.obj servers) =>
          validateMcpServerEntries servers (relPath ++ "/" ++ s)
        | _ => [relPath ++ ": " ++ s ++ " must contain an \"mcpServers\" object"])
      | some (.text _) =>
        [relPath ++ ": " ++ s ++ " is not valid JSON — Unexpected token in JSON"]
      | none =>
        [relPath ++ ": " ++ s ++
          " is not valid JSON — EISDIR: illegal operation on a directory, read"])
  | some (.obj servers) =>
    validateMcpServerEntries servers (relPath ++ "/plugin.json")
  | some .null =>
    [relPath ++
      ": plugin.json is not valid JSON — Cannot convert undefined or null to object"]
  | some _ =>
    [relPath ++ ": mcpServers must be an object or a string path to a .mcp.json file"]

/-! ## Marketplace cascade validator (`src/lib/validate-marketplace.js`) -/

/-- The per-workbench result of the structural validator. -/
structure WbResult where
  path : String
  errors : List String
  warnings : List String

mutual

/-- JavaScript `String(v)` as used by template literals. -/
def jDisplay : JVal → String
  | .null => "null"
  | .bool b => cond b "true" "false"
  | .num n => toString n
  | .str s => s
  | .arr es => jDisplayList es
  | .obj _ => "[object Object]"

def jDisplayList : List JVal → String
  | [] => ""
  | [e] => jDisplay e
  | e :: es => jDisplay e ++ "," ++ jDisplayList es
end

/-- `${plugin.name || '(unnamed)'}`. -/
def nameOrUnnamed (name : Option JVal) : String :=
  match name with
  | some v => if jTruthy v then jDisplay v else "(unnamed)"
  | none => "(unnamed)"

/-- `${plugin.name}` — an absent property interpolates as "undefined". -/
def nameDisplay (name : Option JVal) : String :=
  match name with
  | some v => jDisplay v
  | none => "undefined"

/-- `v === null` (the only `JVal` whose property read throws). -/
def JVal.isNull : JVal → Bool
  | .null => true
  | _ => false

/-- The `for (const plugin of plugins)` loop of `validateMarketplace`:
a `null` entry makes the property read `plugin.source` throw an uncaught
`TypeError`, aborting the whole call; entries without a truthy `source`
get a manifest-level error and are skipped; entries whose resolved
source path does not exist get a manifest-level error and are skipped;
the rest are handed to the structural validator `vw`. -/
def marketLoop (fs : FS) (repoRoot : List String) (vw : List String → WbResult) :
    List JVal → List String → List WbResult →
    Except JErr (List String × List WbResult)
  | [], errs, wbs => pure (errs, wbs)
  | p :: rest, errs, wbs =>
    if p.isNull then
      throw (.typeError "Cannot read properties of null (reading 'source')")
    else
    let sourceV := jGet p "source"
    if !((sourceV.map jTruthy).getD false) then
      marketLoop fs repoRoot vw rest
        (errs ++ ["Plugin \"" ++ nameOrUnnamed (jGet p "name") ++
          "\": missing \"source\" field"]) wbs
    else
      match sourceV with
      | some (.str s) =>
        let resolvedSource := resolvePath repoRoot s
        if !(existsSyncF fs resolvedSource) then
          marketLoop fs repoRoot vw rest
            (errs ++ ["Plugin \"" ++ nameDisplay (jGet p "name") ++
              "\": source path does not exist: " ++ s]) wbs
        else
          marketLoop fs repoRoot vw rest errs (wbs ++ [vw resolvedSource])
      | _ =>
        -- a truthy non-string source reaches `path.resolve`, which throws
        throw (.typeError
          "The \"paths[1]\" argument must be of type string")

/-- `validateMarketplace({ cwd })`.  `findRepoRoot` (context.js, an
external collaborator walking up to the repository root) enters as the
parameter `repoRoot`; `validateWorkbench` (which shells out to the
external `claude` CLI and scans the workbench directory) enters as the
parameter `vw`.  The cascade itself is modelled in full: a missing or
malformed `marketplace.json` is caught and becomes the single
manifest-level error; an empty plugin list records one manifest-level
error; then the per-plugin loop runs. -/
def validateMarketplace (fs : FS) (repoRoot : List String)
    (vw : List String → WbResult) : Except JErr (List String × List WbResult) :=
  let marketplacePath := repoRoot ++ [".claude-plugin", "marketplace.json"]
  if !(existsSyncF fs marketplacePath) then
    pure (["No marketplace.json found at .claude-plugin/marketplace.json"], [])
  else
    match readFileF fs marketplacePath with
    | some (.json .null) =>
      -- `marketplace.plugins` on null throws outside any try/catch
      throw (.typeError "Cannot read properties of null (reading 'plugins')")
    | some (.json marketplace) =>
      (match jGet marketplace "plugins" with
      | some (.arr plugins) =>
        let headErr : List String :=
          if plugins.isEmpty then ["marketplace.json has no plugins listed"] else []
        marketLoop fs repoRoot vw plugins headErr []
      | some v =>
        if jTruthy v then
          -- `for...of` over a truthy non-array (iterable strings aside)
          throw (.typeError "plugins is not iterable")
        else
          pure (["marketplace.json has no plugins listed"], [])
      | none => pure (["marketplace.json has no plugins listed"], []))
    | some (.text _) => pure (["Unexpected token in JSON"], [])
    | none =>
      pure (["EISDIR: illegal operation on a directory, read"], [])

/-- The manifest-level errors one plugin entry contributes in the
`for (const plugin of plugins)` loop of `validateMarketplace`: one
missing-source error for an entry without truthy `source`, one
missing-path error for a string source whose resolved path does not
exist, nothing for an entry whose source exists on disk.  A `null`
entry contributes nothing here: it aborts the whole loop with an
uncaught `TypeError` instead (see `marketLoop`), so the cascade
theorem excludes it by hypothesis. -/
def pluginManifestErrs (fs : FS) (repoRoot : List String) (p : JVal) :
    List String :=
  if p.isNull then []
  else if !(((jGet p "source").map jTruthy).getD false) then
    ["Plugin \"" ++ nameOrUnnamed (jGet p "name") ++ "\": missing \"source\" field"]
  else
    match jGet p "source" with
    | some (.str s) =>
      if !(existsSyncF fs (resolvePath repoRoot s)) then
        ["Plugin \"" ++ nameDisplay (jGet p "name") ++
          "\": source path does not exist: " ++ s]
      else []
    | _ => []

/-- The per-workbench results one plugin entry contributes in the same
loop: the structural validation of its resolved source when that exists,
nothing otherwise (a `null` entry again aborts the loop instead, see
`marketLoop`). -/
def pluginWbResults (fs : FS) (repoRoot : List String)
    (vw : List String → WbResult) (p : JVal) : List WbResult :=
  if p.isNull then []
  else if !(((jGet p "source").map jTruthy).getD false) then []
  else
    match jGet p "source" with
    | some (.str s) =>
      if !(existsSyncF fs (resolvePath repoRoot s)) then []
      else [vw (resolvePath repoRoot s)]
    | _ => []

/-- Spec-side per-entry rule for one `name → config` mcpServers entry:
the config is an object carrying exactly one of `command` and `url`
(never both, never neither). -/
def McpEntryOkP (kv : String × JVal) : Prop :=
  ∃ cfg, kv.2 = .obj cfg ∧
    cfg.any (fun f => f.1 == "command") ≠ cfg.any (fun f => f.1 == "url")

/-- Spec-side acceptance of a declared `mcpServers` value: either an
object mapping server name to config with every config obeying the
per-entry rule, or a string path (resolved against `.claude-plugin`) to a
file that exists, parses as JSON, and contains an `mcpServers` object
whose entries obey the same rule. -/
def McpAccepted (fs : FS) (wbPath : List String) (v : JVal) : Prop :=
  (∃ servers, v = .obj servers ∧ ∀ kv ∈ servers, McpEntryOkP kv) ∨
  (∃ s mcpJson servers, v = .str s ∧
    existsSyncF fs (resolvePath (wbPath ++ [".claude-plugin"]) s) = true ∧
    readFileF fs (resolvePath (wbPath ++ [".claude-plugin"]) s)
      = some (.json mcpJson) ∧
    jGet mcpJson "mcpServers" = some (.obj servers) ∧
    ∀ kv ∈ servers, McpEntryOkP kv)

/-! ## Comparator lemmas -/

theorem compareSemver_neg (a b : String) : compareSemver a b = -compareSemver b a := by
  unfold compareSemver
  split_ifs <;> omega

theorem compareSemver_le_zero_iff (a b : String) :
    compareSemver a b ≤ 0 ↔
      (semverComp a 0 < semverComp b 0 ∨
       (semverComp a 0 = semverComp b 0 ∧
        (semverComp a 1 < semverComp b 1 ∨
         (semverComp a 1 = semverComp b 1 ∧ semverComp a 2 ≤ semverComp b 2)))) := by
  unfold compareSemver
  split_ifs <;> omega

theorem descRel_trans (a b c : String) : descRel a b → descRel b c → descRel a c := by
  unfold descRel
  rw [compareSemver_le_zero_iff, compareSemver_le_zero_iff, compareSemver_le_zero_iff]
  omega

theorem descRel_total (a b : String) : descRel a b ∨ descRel b a := by
  unfold descRel
  have h := compareSemver_neg a b
  omega

/-- C5: For every primitive name, version, and target directory,
`downloadPrimitive` fails with a NotFound-kind error whenever the cached
tag listing contains no tag named exactly `name/vVersion` — even if other
versions of the same primitive exist (the hypothesis constrains only the
exact tag); it never falls back to a nearest version. -/
theorem downloadPrimitive_exact_or_notFound (reg : Registry)
    (name version : String) (targetDir : List String) (fs : FS)
    (tags : List Tag) (hfetch : reg.fetchTags = .ok tags)
    (habs : ∀ t ∈ tags, t.name ≠ name ++ "/v" ++ version) :
    downloadPrimitive reg name version targetDir fs =
      .error (.notFound ("Tag \"" ++ (name ++ "/v" ++ version) ++
        "\" not found in " ++ REPO ++ ".")) := by
  have hany : tags.any (fun t => t.name == name ++ "/v" ++ version) = false := by
    rw [List.any_eq_false]
    intro t ht
    simpa using habs t ht
  unfold downloadPrimitive
  rw [hfetch]
  simp only [bind, Except.bind, hany, Bool.not_false, if_true]
  rfl

/-- Witness for C5: the registry knows `visual-explainer` at 2.0.0 and
1.0.0, yet requesting 1.5.0 fails with the exact NotFound error. -/
theorem downloadPrimitive_exact_or_notFound_witness :
    downloadPrimitive
      ⟨.ok [⟨"visual-explainer/v2.0.0", "aaa"⟩, ⟨"visual-explainer/v1.0.0", "bbb"⟩],
        fun _ => .error "offline"⟩
      "visual-explainer" "1.5.0" ["tmp"] ⟨[]⟩ =
      .error (.notFound
        "Tag \"visual-explainer/v1.5.0\" not found in alavida-ai/skills.") := by
  have h := downloadPrimitive_exact_or_notFound
    ⟨.ok [⟨"visual-explainer/v2.0.0", "aaa"⟩, ⟨"visual-explainer/v1.0.0", "bbb"⟩,],
      fun _ => .error "offline"⟩
    "visual-explainer" "1.5.0" ["tmp"] ⟨[]⟩
    [⟨"visual-explainer/v2.0.0", "aaa"⟩, ⟨"visual-explainer/v1.0.0", "bbb"⟩] rfl
    (by decide)
  simpa using h

/-- The one-pass form of the "versions of tags that parse with a matching
primitive name" pipeline of `getAllVersions`. -/
theorem filtered_versions_eq (tags : List Tag) (name : String) :
    (((tags.map (fun t => parseTag t.name)).filterMap id).filter
      (fun p => p.1 == name)).map (fun p => p.2) =
    tags.filterMap (fun t =>
      match parseTag t.name with
      | some pv => if pv.1 = name then some pv.2 else none
      | none => none) := by
  induction tags with
  | nil => rfl
  | cons t ts ih =>
    simp only [List.map_cons, List.filterMap_cons] at ih ⊢
    cases hp : parseTag t.name with
    | none => simpa [hp] using ih
    | some pv =>
      by_cases h : pv.1 = name
      · simpa [hp, List.filter_cons, h] using ih
      · simpa [hp, List.filter_cons, h] using ih

/-- C6: For every primitive name and every cached tag listing,
`getAllVersions` succeeds and returns exactly the versions of the tags
that parse with a matching primitive name (as a permutation — same
multiset), sorted descending by `compareSemver`; in particular, when no
tag matches it returns the empty list rather than an error. -/
theorem getAllVersions_spec (reg : Registry) (name : String)
    (tags : List Tag) (hfetch : reg.fetchTags = .ok tags) :
    ∃ vs, getAllVersions reg name = .ok vs ∧
      vs.Perm (tags.filterMap (fun t =>
        match parseTag t.name with
        | some pv => if pv.1 = name then some pv.2 else none
        | none => none)) ∧
      vs.Pairwise (fun a b => 0 ≤ compareSemver a b) := by
  have heq : getAllVersions reg name =
      .ok (List.insertionSort descRel
        ((((tags.map (fun t => parseTag t.name)).filterMap id).filter
          (fun p => p.1 == name)).map (fun p => p.2))) := by
    unfold getAllVersions
    rw [hfetch]
    rfl
  refine ⟨_, heq, ?_, ?_⟩
  · rw [← filtered_versions_eq tags name]
    exact List.perm_insertionSort descRel _
  · have hs := @List.sorted_insertionSort String descRel _
      ⟨fun a b => descRel_total a b⟩ ⟨fun a b c => descRel_trans a b c⟩
      ((((tags.map (fun t => parseTag t.name)).filterMap id).filter
        (fun p => p.1 == name)).map (fun p => p.2))
    refine hs.imp ?_
    intro a b hab
    unfold descRel at hab
    have h := compareSemver_neg a b
    omega

/-- Witness for C6 (the spec's own example): tags for `visual-explainer`
at 1.0.0/1.1.0/2.0.0 and `compound-learning` at 1.0.0/1.1.0 give a
successful, matching, descending listing for `visual-explainer`. -/
theorem getAllVersions_spec_witness :
    ∃ vs, getAllVersions
        ⟨.ok [⟨"visual-explainer/v2.0.0", "a"⟩, ⟨"visual-explainer/v1.1.0", "b"⟩,
          ⟨"visual-explainer/v1.0.0", "c"⟩, ⟨"compound-learning/v1.1.0", "d"⟩,
          ⟨"compound-learning/v1.0.0", "e"⟩],
          fun _ => .error "offline"⟩ "visual-explainer" = .ok vs ∧
      vs.Perm ([⟨"visual-explainer/v2.0.0", "a"⟩, ⟨"visual-explainer/v1.1.0", "b"⟩,
          ⟨"visual-explainer/v1.0.0", "c"⟩, ⟨"compound-learning/v1.1.0", "d"⟩,
          ⟨"compound-learning/v1.0.0", "e"⟩].filterMap (fun t =>
        match parseTag (Tag.name t) with
        | some pv => if pv.1 = "visual-explainer" then some pv.2 else none
        | none => none)) ∧
      vs.Pairwise (fun a b => 0 ≤ compareSemver a b) :=
  getAllVersions_spec _ "visual-explainer" _ rfl

/-! ## Tag parsing lemmas -/

theorem tagSplitBase_sound (c : Char) (rest : List Char) (p v : List Char)
    (h : tagSplitBase c rest = some (p, v)) :
    c :: rest = p ++ '/' :: 'v' :: v ∧ p ≠ [] ∧ versionShape v = true := by
  unfold tagSplitBase at h
  split at h
  · split at h
    · rename_i hvs
      simp only [Option.some.injEq, Prod.mk.injEq] at h
      obtain ⟨hp, hv⟩ := h
      subst hp
      subst hv
      exact ⟨rfl, by simp, hvs⟩
    · exact absurd h (by simp)
  · exact absurd h (by simp)

theorem tagSplit_cons (c : Char) (rest : List Char) :
    tagSplit (c :: rest) =
      match tagSplit rest with
      | some (p, v) => some (c :: p, v)
      | none => tagSplitBase c rest := by
  rfl

theorem tagSplit_sound (cs : List Char) (p v : List Char)
    (h : tagSplit cs = some (p, v)) :
    cs = p ++ '/' :: 'v' :: v ∧ p ≠ [] ∧ versionShape v = true := by
  induction cs generalizing p v with
  | nil => simp [tagSplit] at h
  | cons c rest ih =>
    rw [tagSplit_cons] at h
    cases hrec : tagSplit rest with
    | some pr =>
      obtain ⟨p', v'⟩ := pr
      rw [hrec] at h
      simp only [Option.some.injEq, Prod.mk.injEq] at h
      obtain ⟨hp, hv⟩ := h
      obtain ⟨hcs, hpne, hvs⟩ := ih p' v' hrec
      subst hp
      subst hv
      refine ⟨by rw [hcs]; rfl, by simp, hvs⟩
    | none =>
      rw [hrec] at h
      exact tagSplitBase_sound c rest p v h

theorem tagSplit_maximal (r : List Char) (hr : versionShape r = true) :
    ∀ (p : List Char), p ≠ [] →
      ∃ p' v', tagSplit (p ++ '/' :: 'v' :: r) = some (p', v') ∧
        p.length ≤ p'.length := by
  intro p
  induction p with
  | nil => intro hp; exact absurd rfl hp
  | cons c p'' ih =>
    intro _
    by_cases hp'' : p'' = []
    · subst hp''
      cases hrec : tagSplit ('/' :: 'v' :: r) with
      | some pr =>
        obtain ⟨q, w⟩ := pr
        refine ⟨c :: q, w, ?_, by simp⟩
        rw [show ([c] ++ '/' :: 'v' :: r) = c :: '/' :: 'v' :: r from rfl,
          tagSplit_cons, hrec]
      | none =>
        refine ⟨[c], r, ?_, by simp⟩
        rw [show ([c] ++ '/' :: 'v' :: r) = c :: '/' :: 'v' :: r from rfl,
          tagSplit_cons, hrec]
        simp [tagSplitBase, hr]
    · obtain ⟨q, w, hq, hlen⟩ := ih hp''
      refine ⟨c :: q, w, ?_, by simp; omega⟩
      rw [show ((c :: p'') ++ '/' :: 'v' :: r) = c :: (p'' ++ '/' :: 'v' :: r) from rfl,
        tagSplit_cons, hq]

/-- C10: the greedy `(.+)` group of the tag regex assigns the longest
possible prefix to the primitive name: for every decomposition
`p ++ "/v" ++ r` with `p` nonempty and `r` of version shape (and no line
terminators in the string), `parseTag` succeeds and returns a primitive
name at least as long as `p` — so with more than one `/vX.Y.Z` fragment
the name absorbs everything before the last one, e.g.
`parseTag "a/v1.0.0/v2.0.0" = { primitive := "a/v1.0.0", version := "2.0.0" }`,
and a name may itself contain slashes and version-like text. -/
theorem parseTag_greedy (p r : String) (hp : p ≠ "")
    (hr : versionShape r.data = true)
    (hnl : (p ++ "/v" ++ r).data.any isLineTerm = false) :
    (∃ p' r', parseTag (p ++ "/v" ++ r) = some (p', r') ∧
      p.length ≤ p'.length ∧ p' ++ "/v" ++ r' = p ++ "/v" ++ r ∧
      versionShape r'.data = true ∧ p' ≠ "") ∧
    parseTag "a/v1.0.0/v2.0.0" = some ("a/v1.0.0", "2.0.0") := by
  constructor
  · have hpd : p.data ≠ [] := by
      intro hnil
      exact hp (String.ext hnil)
    have hdata : (p ++ "/v" ++ r).data = p.data ++ '/' :: 'v' :: r.data := by
      rw [String.data_append, String.data_append,
        show "/v".data = ['/', 'v'] from rfl, List.append_assoc]
      rfl
    obtain ⟨p', v', hsplit, hlen⟩ := tagSplit_maximal r.data hr p.data hpd
    obtain ⟨hcs, hpne, hvs⟩ := tagSplit_sound _ _ _ hsplit
    refine ⟨String.mk p', String.mk v', ?_, ?_, ?_, ?_, ?_⟩
    · unfold parseTag
      rw [hnl, hdata, hsplit]
      rfl
    · exact hlen
    · apply String.ext
      rw [String.data_append, String.data_append, hdata]
      rw [show (String.mk p').data = p' from rfl,
        show (String.mk v').data = v' from rfl,
        show "/v".data = ['/', 'v'] from rfl, List.append_assoc]
      exact hcs.symm
    · exact hvs
    · intro hnil
      apply hpne
      have : (String.mk p').data = "".data := by rw [hnil]
      exact this
  · rfl

/-- Witness for C10 at the concrete two-fragment tag. -/
theorem parseTag_greedy_witness :
    (∃ p' r', parseTag ("a" ++ "/v" ++ "1.0.0/v2.0.0") = some (p', r') ∧
      ("a" : String).length ≤ p'.length ∧
      p' ++ "/v" ++ r' = "a" ++ "/v" ++ "1.0.0/v2.0.0" ∧
      versionShape r'.data = true ∧ p' ≠ "") ∧
    parseTag "a/v1.0.0/v2.0.0" = some ("a/v1.0.0", "2.0.0") :=
  parseTag_greedy "a" "1.0.0/v2.0.0" (by decide) (by decide) (by decide)

/-! ## Status classification (C4) -/

theorem parseTag_version_ne_empty (s : String) (pv : String × String)
    (h : parseTag s = some pv) : pv.2 ≠ "" := by
  unfold parseTag at h
  split at h
  · exact absurd h (by simp)
  · cases hsplit : tagSplit s.data with
    | none => rw [hsplit] at h; exact absurd h (by simp)
    | some pr =>
      obtain ⟨p', v'⟩ := pr
      rw [hsplit] at h
      simp only [Option.some.injEq] at h
      obtain ⟨_, hpne, hvs⟩ := tagSplit_sound _ _ _ hsplit
      have hne : v' ≠ [] := by
        intro hnil
        rw [hnil] at hvs
        simp [versionShape] at hvs
      intro hcontra
      apply hne
      have : (String.mk v').data = "".data := by
        rw [show String.mk v' = pv.2 from by rw [← h], hcontra]
      exact this

theorem getAllVersions_mem_ne_empty (reg : Registry) (n : String)
    (vs : List String) (h : getAllVersions reg n = .ok vs) :
    ∀ v ∈ vs, v ≠ "" := by
  cases hfetch : reg.fetchTags with
  | error e =>
    unfold getAllVersions at h
    rw [hfetch] at h
    exact absurd h (by simp [bind, Except.bind])
  | ok tags =>
    have heq : getAllVersions reg n =
        .ok (List.insertionSort descRel
          ((((tags.map (fun t => parseTag t.name)).filterMap id).filter
            (fun p => p.1 == n)).map (fun p => p.2))) := by
      unfold getAllVersions
      rw [hfetch]
      rfl
    rw [heq] at h
    simp only [Except.ok.injEq] at h
    subst h
    intro v hv
    have hmem := (List.perm_insertionSort descRel _).subset hv
    rw [filtered_versions_eq] at hmem
    rw [List.mem_filterMap] at hmem
    obtain ⟨t, _, hmt⟩ := hmem
    cases hpt : parseTag t.name with
    | none => rw [hpt] at hmt; exact absurd hmt (by simp)
    | some pv =>
      rw [hpt] at hmt
      simp only at hmt
      split at hmt
      · simp only [Option.some.injEq] at hmt
        rw [← hmt]
        exact parseTag_version_ne_empty t.name pv hpt
      · exact absurd hmt (by simp)

theorem getLatestVersion_some_ne_empty (reg : Registry) (n l : String)
    (h : getLatestVersion reg n = .ok (some l)) : l ≠ "" := by
  cases hga : getAllVersions reg n with
  | error e =>
    unfold getLatestVersion at h
    rw [hga] at h
    exact absurd h (by simp [bind, Except.bind])
  | ok vs =>
    unfold getLatestVersion at h
    rw [hga] at h
    simp only [bind, Except.bind, pure, Except.pure, Except.ok.injEq] at h
    have hl : l ∈ vs := List.mem_of_mem_head? (by rw [h]; exact rfl)
    exact getAllVersions_mem_ne_empty reg n vs hga l hl

/-- The resolvability condition of C4: `getLatestVersion` yields no
version (no matching primitive in the registry, or the registry query
threw). -/
def noLatest (reg : Registry) (n : String) : Prop :=
  getLatestVersion reg n = .ok none ∨ ∃ e, getLatestVersion reg n = .error e

theorem checkPrim_error (reg : Registry) (n pv : String) (e : JErr)
    (hl : getLatestVersion reg n = .error e) :
    checkPrim reg n pv =
      { name := n, pinned := stripV pv, latest := "unknown", status := "UNKNOWN" } := by
  unfold checkPrim
  rw [hl]

theorem checkPrim_none (reg : Registry) (n pv : String)
    (hl : getLatestVersion reg n = .ok none) :
    checkPrim reg n pv =
      { name := n, pinned := stripV pv, latest := "unknown", status := "UNKNOWN" } := by
  unfold checkPrim
  rw [hl]

theorem checkPrim_some (reg : Registry) (n pv l : String)
    (hl : getLatestVersion reg n = .ok (some l)) (hne : l ≠ "") :
    checkPrim reg n pv =
      { name := n, pinned := stripV pv, latest := l,
        status := if 0 ≤ compareSemver (stripV pv) l then "CURRENT" else "BEHIND" } := by
  unfold checkPrim
  rw [hl]
  simp only [if_pos hne]

/-- C4: `checkWorkbenchPrimitives` produces one entry per pinned
primitive, position by position (so a registry failure on one primitive
never aborts the others), and classifies it CURRENT iff the pinned
version (v-stripped) compares ≥ 0 against a resolvable latest, BEHIND iff
that comparison is negative, and UNKNOWN iff no latest is resolvable, in
which case the reported latest is the string "unknown". -/
theorem checkWorkbenchPrimitives_classification (reg : Registry)
    (wb : WorkbenchInfo) :
    List.Forall₂ (fun (kv : String × String) (e : PrimStatus) =>
      (e.status = "CURRENT" ↔ ∃ l, getLatestVersion reg kv.1 = .ok (some l) ∧
        0 ≤ compareSemver (stripV kv.2) l) ∧
      (e.status = "BEHIND" ↔ ∃ l, getLatestVersion reg kv.1 = .ok (some l) ∧
        compareSemver (stripV kv.2) l < 0) ∧
      (e.status = "UNKNOWN" ↔ noLatest reg kv.1) ∧
      (noLatest reg kv.1 → e.latest = "unknown"))
      wb.primitives (checkWorkbenchPrimitives reg wb).primitives := by
  unfold checkWorkbenchPrimitives
  simp only [List.forall₂_map_right_iff]
  apply List.forall₂_same.mpr
  intro kv _
  cases hl : getLatestVersion reg kv.1 with
  | error e =>
    rw [checkPrim_error reg kv.1 kv.2 e hl]
    refine ⟨?_, ?_, ?_, fun _ => rfl⟩
    · constructor
      · intro h
        exact absurd (show ("UNKNOWN" : String) = "CURRENT" from h) (by decide)
      · rintro ⟨l, hok, -⟩; exact absurd hok (by simp)
    · constructor
      · intro h
        exact absurd (show ("UNKNOWN" : String) = "BEHIND" from h) (by decide)
      · rintro ⟨l, hok, -⟩; exact absurd hok (by simp)
    · exact ⟨fun _ => Or.inr ⟨e, hl⟩, fun _ => rfl⟩
  | ok latest =>
    cases latest with
    | none =>
      rw [checkPrim_none reg kv.1 kv.2 hl]
      refine ⟨?_, ?_, ?_, fun _ => rfl⟩
      · constructor
        · intro h
          exact absurd (show ("UNKNOWN" : String) = "CURRENT" from h) (by decide)
        · rintro ⟨l, hok, -⟩; exact absurd hok (by simp)
      · constructor
        · intro h
          exact absurd (show ("UNKNOWN" : String) = "BEHIND" from h) (by decide)
        · rintro ⟨l, hok, -⟩; exact absurd hok (by simp)
      · exact ⟨fun _ => Or.inl hl, fun _ => rfl⟩
    | some l =>
      have hne : l ≠ "" := getLatestVersion_some_ne_empty reg kv.1 l hl
      rw [checkPrim_some reg kv.1 kv.2 l hl hne]
      have hnotnl : ¬ noLatest reg kv.1 := by
        unfold noLatest
        rw [hl]
        rintro (h | ⟨e, h⟩) <;> exact absurd h (by simp)
      by_cases hcmp : 0 ≤ compareSemver (stripV kv.2) l
      · rw [if_pos hcmp]
        refine ⟨⟨fun _ => ⟨l, rfl, hcmp⟩, fun _ => rfl⟩, ?_, ?_,
          fun hnl => absurd hnl hnotnl⟩
        · constructor
          · intro h
            exact absurd (show ("CURRENT" : String) = "BEHIND" from h) (by decide)
          · rintro ⟨l', hok, hlt⟩
            simp only [Except.ok.injEq, Option.some.injEq] at hok
            subst hok
            omega
        · constructor
          · intro h
            exact absurd (show ("CURRENT" : String) = "UNKNOWN" from h) (by decide)
          · intro hnl; exact absurd hnl hnotnl
      · rw [if_neg hcmp]
        refine ⟨?_, ⟨fun _ => ⟨l, rfl, by omega⟩, fun _ => rfl⟩, ?_,
          fun hnl => absurd hnl hnotnl⟩
        · constructor
          · intro h
            exact absurd (show ("BEHIND" : String) = "CURRENT" from h) (by decide)
          · rintro ⟨l', hok, hge⟩
            simp only [Except.ok.injEq, Option.some.injEq] at hok
            subst hok
            omega
        · constructor
          · intro h
            exact absurd (show ("BEHIND" : String) = "UNKNOWN" from h) (by decide)
          · intro hnl; exact absurd hnl hnotnl

/-! ## Install idempotence (C2) -/

theorem existsSyncF_of_readFileF (fs : FS) (p q : List String) (d : FileData)
    (h : readFileF fs (p ++ q) = some d) : existsSyncF fs p = true := by
  unfold readFileF at h
  unfold existsSyncF
  cases hf : fs.files.find? (fun e => e.1 == p ++ q) with
  | none => rw [hf] at h; exact absurd h (by simp)
  | some entry =>
    have hmem := List.mem_of_find?_eq_some hf
    have hkey := List.find?_some hf
    rw [List.any_eq_true]
    refine ⟨entry, hmem, ?_⟩
    have hk : entry.1 = p ++ q := by simpa using hkey
    rw [List.isPrefixOf_iff_prefix, hk]
    exact ⟨q, rfl⟩

/-- A pin whose on-disk marker already equals the v-stripped pin makes
one install iteration a pure skip. -/
theorem installStep_skip (reg : Registry) (wbPath : List String) (d : Bool)
    (fs : FS) (k v : String)
    (hmk : ∃ s, readFileF fs (wbPath ++ ["skills", k, ".primitive-version"]) =
      some (.text s) ∧ String.mk (trimChars s.data) = stripV v) :
    installStep reg wbPath d fs k v =
      .ok (fs, { name := k, action := .skipped, version := stripV v,
                 reason := some "already installed" }) := by
  obtain ⟨s, hs, htrim⟩ := hmk
  have hexDir : existsSyncF fs (wbPath ++ ["skills", k]) = true := by
    apply existsSyncF_of_readFileF fs (wbPath ++ ["skills", k])
      [".primitive-version"] (FileData.text s)
    simpa using hs
  have hexMark : existsSyncF fs (wbPath ++ ["skills", k, ".primitive-version"])
      = true := by
    apply existsSyncF_of_readFileF fs (wbPath ++ ["skills", k, ".primitive-version"])
      [] (FileData.text s)
    simpa using hs
  unfold installStep detectInstalledVersion
  simp [fileBytes, hexDir, hexMark, hs, htrim, bind, Except.bind, pure, Except.pure]

/-- The install loop over pins that are all already installed is a pure
sequence of skips. -/
theorem installLoop_all_skipped (reg : Registry) (wbPath : List String)
    (d : Bool) (pins : List (String × String)) :
    ∀ (fs : FS) (acts : List Action),
    (∀ kv ∈ pins, ∃ s,
      readFileF fs (wbPath ++ ["skills", kv.1, ".primitive-version"]) =
        some (.text s) ∧ String.mk (trimChars s.data) = stripV kv.2) →
    installLoop reg wbPath d pins fs acts =
      .ok (fs, acts ++ pins.map (fun kv =>
        { name := kv.1, action := .skipped, version := stripV kv.2,
          reason := some "already installed" })) := by
  induction pins with
  | nil => intro fs acts _; simp [installLoop, pure, Except.pure]
  | cons kv rest ih =>
    intro fs acts hmk
    have hstep := installStep_skip reg wbPath d fs kv.1 kv.2 (hmk kv (by simp))
    unfold installLoop
    rw [hstep]
    simp only [bind, Except.bind]
    rw [ih fs (acts ++ [_]) (fun kv' h' => hmk kv' (by simp [h']))]
    simp

/-- C2: install is idempotent.  When the on-disk version marker of every
pinned primitive equals the pin after v-stripping (string equality, as
the code compares), a plain `installPrimitives` run (no `--update`, any
dry-run setting) returns the filesystem unchanged — zero writes, marker
files untouched — and reports every primitive as skipped with reason
"already installed". -/
theorem installPrimitives_idempotent (reg : Registry) (wb : WorkbenchInfo)
    (fs : FS) (d : Bool)
    (hmk : ∀ kv ∈ wb.primitives, ∃ s,
      readFileF fs (wb.path ++ ["skills", kv.1, ".primitive-version"]) =
        some (.text s) ∧ String.mk (trimChars s.data) = stripV kv.2) :
    installPrimitives reg wb { update := false, dryRun := d } fs =
      .ok (fs, { workbench := wb.name, path := wb.relativePath,
                 actions := wb.primitives.map (fun kv =>
                   { name := kv.1, action := .skipped, version := stripV kv.2,
                     reason := some "already installed" }) }) := by
  unfold installPrimitives
  by_cases hemp : wb.primitives.isEmpty
  · have : wb.primitives = [] := List.isEmpty_iff.mp hemp
    rw [this] at hmk ⊢
    simp [hemp, this, pure, Except.pure]
  · simp only [hemp, Bool.false_eq_true, if_false, Bool.false_and]
    rw [installLoop_all_skipped reg wb.path d wb.primitives fs [] hmk]
    simp [bind, Except.bind, pure, Except.pure]

/-- Witness for C2: a workbench pinning `compound-learning@v1.1.0` whose
marker file already reads `1.1.0` is fully skipped with the filesystem
returned unchanged. -/
theorem installPrimitives_idempotent_witness :
    installPrimitives
      ⟨.ok [⟨"compound-learning/v1.1.0", "d"⟩], fun _ => .error "offline"⟩
      { name := "wb", relativePath := "wb", path := ["repo", "wb"],
        primitives := [("compound-learning", "v1.1.0")] }
      { update := false, dryRun := false }
      ⟨[(["repo", "wb", "skills", "compound-learning", ".primitive-version"],
          .text "1.1.0")]⟩ =
      .ok (⟨[(["repo", "wb", "skills", "compound-learning", ".primitive-version"],
          .text "1.1.0")]⟩,
        { workbench := "wb", path := "wb",
          actions := [{ name := "compound-learning", action := .skipped,
                        version := "1.1.0",
                        reason := some "already installed" }] }) := by
  have h := installPrimitives_idempotent
    ⟨.ok [⟨"compound-learning/v1.1.0", "d"⟩], fun _ => .error "offline"⟩
    { name := "wb", relativePath := "wb", path := ["repo", "wb"],
      primitives := [("compound-learning", "v1.1.0")] }
    ⟨[(["repo", "wb", "skills", "compound-learning", ".primitive-version"],
        .text "1.1.0")]⟩ false
    (by
      intro kv hkv
      rw [List.mem_singleton] at hkv
      subst hkv
      exact ⟨"1.1.0", rfl, by decide⟩)
  simpa using h

/-! ## Dry-run purity (C1) -/

theorem installStep_dryRun_fs (reg : Registry) (wbPath : List String)
    (fs : FS) (k v : String) (r : FS × Action)
    (h : installStep reg wbPath true fs k v = .ok r) : r.1 = fs := by
  unfold installStep at h
  dsimp only at h
  cases hdet : (if existsSyncF fs (wbPath ++ ["skills", k]) then
      detectInstalledVersion fs (wbPath ++ ["skills", k]) else pure none) with
  | error e =>
    rw [hdet] at h
    exact absurd h (by simp [bind, Except.bind])
  | ok installed =>
    rw [hdet] at h
    simp only [bind, Except.bind] at h
    split at h
    · simp only [pure, Except.pure, Except.ok.injEq] at h
      rw [← h]
    · simp only [if_true, pure, Except.pure, Except.ok.injEq] at h
      rw [← h]

theorem installLoop_dryRun_pure (reg : Registry) (wbPath : List String)
    (pins : List (String × String)) :
    ∀ (fs : FS) (acts : List Action) (fs' : FS) (acts' : List Action),
    installLoop reg wbPath true pins fs acts = .ok (fs', acts') → fs' = fs := by
  induction pins with
  | nil =>
    intro fs acts fs' acts' h
    simp only [installLoop, pure, Except.pure, Except.ok.injEq] at h
    exact (congrArg Prod.fst h).symm
  | cons kv rest ih =>
    intro fs acts fs' acts' h
    unfold installLoop at h
    cases hstep : installStep reg wbPath true fs kv.1 kv.2 with
    | error e =>
      rw [hstep] at h
      exact absurd h (by simp [bind, Except.bind])
    | ok r =>
      rw [hstep] at h
      simp only [bind, Except.bind] at h
      have hr := installStep_dryRun_fs reg wbPath fs kv.1 kv.2 r hstep
      rw [ih r.1 (acts ++ [r.2]) fs' acts' h, hr]

theorem updateLoop_dryRun_pure (reg : Registry) (nm latest : String)
    (wbs : List WorkbenchInfo) :
    ∀ (fs : FS) (res : List UpdateEntry) (fs' : FS) (res' : List UpdateEntry),
    updateLoop reg nm latest true wbs fs res = .ok (fs', res') → fs' = fs := by
  induction wbs with
  | nil =>
    intro fs res fs' res' h
    simp only [updateLoop, pure, Except.pure, Except.ok.injEq] at h
    exact (congrArg Prod.fst h).symm
  | cons wb rest ih =>
    intro fs res fs' res' h
    unfold updateLoop at h
    cases hfind : wb.primitives.find? (fun kv => kv.1 == nm) with
    | none =>
      rw [hfind] at h
      exact ih fs res fs' res' h
    | some kv =>
      rw [hfind] at h
      dsimp only at h
      by_cases hcmp : compareSemver (stripV kv.2) latest ≥ 0
      · rw [if_pos hcmp] at h
        exact ih _ _ _ _ h
      · rw [if_neg hcmp] at h
        exact ih _ _ _ _ h

/-- C1: dry-run purity.  Any `installPrimitives` call (either `update`
setting) and any `updatePrimitive` call invoked with dry-run that returns
normally returns the filesystem — manifest file included — byte-identical
to before the call, regardless of which actions it reports. -/
theorem dryRun_pure (reg : Registry) (wb : WorkbenchInfo) (nm : String)
    (wbs : List WorkbenchInfo) (fs : FS) (u : Bool) :
    (∀ fs' r, installPrimitives reg wb { update := u, dryRun := true } fs =
      .ok (fs', r) → fs' = fs) ∧
    (∀ fs' r, updatePrimitive reg nm wbs true fs = .ok (fs', r) → fs' = fs) := by
  constructor
  · intro fs' r h
    unfold installPrimitives at h
    split at h
    · simp only [pure, Except.pure, Except.ok.injEq] at h
      exact (congrArg Prod.fst h).symm
    · dsimp only at h
      cases hloop : installLoop reg wb.path true
          (if u = true then bumpPins reg wb.primitives else wb.primitives) fs [] with
      | error e =>
        rw [hloop] at h
        exact absurd h (by simp [bind, Except.bind])
      | ok pr =>
        obtain ⟨fs1, acts1⟩ := pr
        rw [hloop] at h
        simp only [bind, Except.bind, Bool.not_true, Bool.and_false,
          Bool.false_eq_true, if_false, pure, Except.pure, Except.ok.injEq] at h
        have hfs1 := installLoop_dryRun_pure reg wb.path _ fs [] fs1 acts1 hloop
        rw [← hfs1]
        exact (congrArg Prod.fst h).symm
  · intro fs' r h
    unfold updatePrimitive at h
    cases hlv : getLatestVersion reg nm with
    | error e =>
      rw [hlv] at h
      exact absurd h (by simp [bind, Except.bind])
    | ok latest =>
      rw [hlv] at h
      simp only [bind, Except.bind] at h
      cases latest with
      | none =>
        simp only [pure, Except.pure, Except.ok.injEq] at h
        exact (congrArg Prod.fst h).symm
      | some l =>
        dsimp only at h
        split at h
        · simp only [pure, Except.pure, Except.ok.injEq] at h
          exact (congrArg Prod.fst h).symm
        · cases hloop : updateLoop reg nm l true wbs fs [] with
          | error e =>
            rw [hloop] at h
            exact absurd h (by simp [bind, Except.bind])
          | ok pr =>
            obtain ⟨fs1, res1⟩ := pr
            rw [hloop] at h
            simp only [bind, Except.bind, pure, Except.pure, Except.ok.injEq] at h
            have hfs1 := updateLoop_dryRun_pure reg nm l wbs fs [] fs1 res1 hloop
            rw [← hfs1]
            exact (congrArg Prod.fst h).symm

/-- Witness for C1: a dry-run install over one missing and one installed
primitive, and a dry-run update, both return the starting filesystem. -/
theorem dryRun_pure_witness :
    (installPrimitives
      ⟨.ok [⟨"visual-explainer/v2.0.0", "a"⟩, ⟨"visual-explainer/v1.1.0", "b"⟩],
        fun _ => .error "offline"⟩
      { name := "wb", relativePath := "wb", path := ["repo", "wb"],
        primitives := [("visual-explainer", "v1.1.0")] }
      { update := true, dryRun := true }
      ⟨[(["repo", "wb", "workbench.json"],
          .json (.obj [("primitives", .obj [("visual-explainer", .str "v1.1.0")])]))]⟩).map
      (fun pr => pr.1) =
    .ok ⟨[(["repo", "wb", "workbench.json"],
        .json (.obj [("primitives", .obj [("visual-explainer", .str "v1.1.0")])]))]⟩ := by
  have heval : installPrimitives
      ⟨.ok [⟨"visual-explainer/v2.0.0", "a"⟩, ⟨"visual-explainer/v1.1.0", "b"⟩],
        fun _ => .error "offline"⟩
      { name := "wb", relativePath := "wb", path := ["repo", "wb"],
        primitives := [("visual-explainer", "v1.1.0")] }
      { update := true, dryRun := true }
      ⟨[(["repo", "wb", "workbench.json"],
          .json (.obj [("primitives", .obj [("visual-explainer", .str "v1.1.0")])]))]⟩ =
      .ok (⟨[(["repo", "wb", "workbench.json"],
          .json (.obj [("primitives", .obj [("visual-explainer", .str "v1.1.0")])]))]⟩,
        { workbench := "wb", path := "wb",
          actions := [{ name := "visual-explainer", action := .would_install,
                        version := "2.0.0", fromV := some none }] }) := by
    rfl
  rw [heval,
    (dryRun_pure
      ⟨.ok [⟨"visual-explainer/v2.0.0", "a"⟩, ⟨"visual-explainer/v1.1.0", "b"⟩],
        fun _ => .error "offline"⟩
      { name := "wb", relativePath := "wb", path := ["repo", "wb"],
        primitives := [("visual-explainer", "v1.1.0")] }
      "x" []
      ⟨[(["repo", "wb", "workbench.json"],
          .json (.obj [("primitives", .obj [("visual-explainer", .str "v1.1.0")])]))]⟩
      true).1 _ _ heval]
  rfl

/-! ## Filesystem frame lemmas (used for C3 and C9) -/

theorem isPrefixOf_eq_false {p t : List String} (h : ¬ p <+: t) :
    p.isPrefixOf t = false := by
  cases hb : p.isPrefixOf t
  · rfl
  · exact absurd (List.isPrefixOf_iff_prefix.mp hb) h

theorem isPrefixOf_eq_true {p t : List String} (h : p <+: t) :
    p.isPrefixOf t = true :=
  List.isPrefixOf_iff_prefix.mpr h

theorem find_map_write_self (files : List (List String × FileData))
    (t : List String) (d : FileData)
    (hany : files.any (fun e => e.1 == t) = true) :
    (files.map (fun e => if e.1 == t then (t, d) else e)).find?
      (fun e => e.1 == t) = some (t, d) := by
  induction files with
  | nil => simp at hany
  | cons e rest ih =>
    simp only [List.map_cons]
    by_cases he : e.1 = t
    · rw [if_pos (by simpa using he)]
      exact List.find?_cons_of_pos _ (by simp)
    · rw [if_neg (by simpa using he)]
      rw [List.find?_cons_of_neg _ (by simpa using he)]
      apply ih
      simp only [List.any_cons, Bool.or_eq_true] at hany
      rcases hany with h | h
      · exact absurd (by simpa using h) he
      · exact h

theorem readFileF_write_self (fs : FS) (t : List String) (d : FileData) :
    readFileF (writeFileF fs t d) t = some d := by
  unfold readFileF writeFileF
  by_cases hany : fs.files.any (fun e => e.1 == t) = true
  · rw [if_pos hany]
    dsimp only
    rw [find_map_write_self fs.files t d hany]
    rfl
  · rw [if_neg hany]
    dsimp only
    rw [List.find?_append]
    have hnone : fs.files.find? (fun e => e.1 == t) = none := by
      rw [List.find?_eq_none]
      intro e he hc
      exact hany (List.any_eq_true.mpr ⟨e, he, hc⟩)
    rw [hnone]
    simp

theorem find_map_write_ne (files : List (List String × FileData))
    (t : List String) (d : FileData) (p : List String) (h : p ≠ t) :
    (files.map (fun e => if e.1 == t then (t, d) else e)).find?
      (fun e => e.1 == p) = files.find? (fun e => e.1 == p) := by
  induction files with
  | nil => rfl
  | cons e rest ih =>
    simp only [List.map_cons]
    by_cases he : e.1 = t
    · rw [if_pos (by simpa using he)]
      rw [List.find?_cons_of_neg _ (by simpa using fun hc => h hc.symm),
        List.find?_cons_of_neg _ (by
          rw [he]
          simpa using fun hc => h hc.symm)]
      exact ih
    · rw [if_neg (by simpa using he)]
      by_cases hep : e.1 = p
      · rw [List.find?_cons_of_pos _ (by simpa using hep),
          List.find?_cons_of_pos _ (by simpa using hep)]
      · rw [List.find?_cons_of_neg _ (by simpa using hep),
          List.find?_cons_of_neg _ (by simpa using hep)]
        exact ih

theorem readFileF_write_ne (fs : FS) (t : List String) (d : FileData)
    (p : List String) (h : p ≠ t) :
    readFileF (writeFileF fs t d) p = readFileF fs p := by
  unfold readFileF writeFileF
  by_cases hany : fs.files.any (fun e => e.1 == t) = true
  · rw [if_pos hany]
    dsimp only
    rw [find_map_write_ne fs.files t d p h]
  · rw [if_neg hany]
    dsimp only
    rw [List.find?_append]
    have : List.find? (fun e => e.1 == p) [(t, d)] = none := by
      simp only [List.find?]
      rw [show ((t, d).1 == p) = false from by simpa using fun hc => h hc.symm]
    rw [this]
    simp

theorem any_prefix_map_write (files : List (List String × FileData))
    (t : List String) (d : FileData) (p : List String) :
    (files.map (fun e => if e.1 == t then (t, d) else e)).any
      (fun e => p.isPrefixOf e.1) = files.any (fun e => p.isPrefixOf e.1) := by
  induction files with
  | nil => rfl
  | cons e rest ih =>
    simp only [List.map_cons, List.any_cons, ih]
    congr 1
    by_cases he : e.1 = t
    · rw [if_pos (by simpa using he)]
      rw [he]
    · rw [if_neg (by simpa using he)]

theorem existsSyncF_write (fs : FS) (t : List String) (d : FileData)
    (p : List String) :
    existsSyncF (writeFileF fs t d) p = (existsSyncF fs p || p.isPrefixOf t) := by
  unfold existsSyncF writeFileF
  by_cases hany : fs.files.any (fun e => e.1 == t) = true
  · rw [if_pos hany]
    dsimp only
    rw [any_prefix_map_write fs.files t d p]
    cases hpt : p.isPrefixOf t
    · simp
    · simp only [Bool.or_true]
      obtain ⟨e, he, het⟩ := List.any_eq_true.mp hany
      refine List.any_eq_true.mpr ⟨e, he, ?_⟩
      rw [show e.1 = t from by simpa using het]
      exact hpt
  · rw [if_neg hany]
    dsimp only
    rw [List.any_append]
    simp

theorem find_filter_rm (files : List (List String × FileData))
    (d₀ p : List String) (h : ¬ d₀ <+: p) :
    (files.filter (fun e => !(d₀.isPrefixOf e.1))).find?
      (fun e => e.1 == p) = files.find? (fun e => e.1 == p) := by
  induction files with
  | nil => rfl
  | cons e rest ih =>
    rw [List.filter_cons]
    by_cases he : d₀ <+: e.1
    · rw [if_neg (by simp [isPrefixOf_eq_true he])]
      rw [List.find?_cons_of_neg _ (by
        simp only [beq_iff_eq]
        intro hc
        rw [hc] at he
        exact h he)]
      exact ih
    · rw [if_pos (by simp [isPrefixOf_eq_false he])]
      by_cases hep : e.1 = p
      · rw [List.find?_cons_of_pos _ (by simpa using hep),
          List.find?_cons_of_pos _ (by simpa using hep)]
      · rw [List.find?_cons_of_neg _ (by simpa using hep),
          List.find?_cons_of_neg _ (by simpa using hep)]
        exact ih

theorem readFileF_rm (fs : FS) (d₀ p : List String) (h : ¬ d₀ <+: p) :
    readFileF (rmRecF fs d₀) p = readFileF fs p := by
  unfold readFileF rmRecF
  dsimp only
  rw [find_filter_rm fs.files d₀ p h]

theorem existsSyncF_rm_incomp (fs : FS) (d₀ p : List String)
    (h1 : ¬ p <+: d₀) (h2 : ¬ d₀ <+: p) :
    existsSyncF (rmRecF fs d₀) p = existsSyncF fs p := by
  unfold existsSyncF rmRecF
  dsimp only
  induction fs.files with
  | nil => rfl
  | cons e rest ih =>
    rw [List.filter_cons]
    by_cases he : d₀ <+: e.1
    · have hpe : ¬ p <+: e.1 := by
        intro hc
        rcases List.prefix_or_prefix_of_prefix hc he with hx | hx
        · exact h1 hx
        · exact h2 hx
      rw [if_neg (by simp [isPrefixOf_eq_true he])]
      rw [List.any_cons, isPrefixOf_eq_false hpe, ih]
      simp
    · rw [if_pos (by simp [isPrefixOf_eq_false he])]
      rw [List.any_cons, List.any_cons, ih]

theorem find_map_rename (files : List (List String × FileData))
    (src dst p : List String) (hs : ¬ src <+: p) (hd : ¬ dst <+: p) :
    (files.map (fun e =>
      if src.isPrefixOf e.1 then (dst ++ e.1.drop src.length, e.2) else e)).find?
      (fun e => e.1 == p) = files.find? (fun e => e.1 == p) := by
  induction files with
  | nil => rfl
  | cons e rest ih =>
    simp only [List.map_cons]
    by_cases he : src <+: e.1
    · rw [if_pos (by simp [isPrefixOf_eq_true he])]
      rw [List.find?_cons_of_neg _ (by
        simp only [beq_iff_eq]
        intro hc
        apply hd
        rw [← hc]
        exact List.prefix_append dst (e.1.drop src.length))]
      rw [List.find?_cons_of_neg _ (by
        simp only [beq_iff_eq]
        intro hc
        rw [hc] at he
        exact hs he)]
      exact ih
    · rw [if_neg (by simp [isPrefixOf_eq_false he])]
      by_cases hep : e.1 = p
      · rw [List.find?_cons_of_pos _ (by simpa using hep),
          List.find?_cons_of_pos _ (by simpa using hep)]
      · rw [List.find?_cons_of_neg _ (by simpa using hep),
          List.find?_cons_of_neg _ (by simpa using hep)]
        exact ih

theorem readFileF_rename (fs : FS) (src dst p : List String)
    (hs : ¬ src <+: p) (hd : ¬ dst <+: p) :
    readFileF (renameF fs src dst) p = readFileF fs p := by
  unfold readFileF renameF
  dsimp only
  rw [find_map_rename fs.files src dst p hs hd]

theorem existsSyncF_rename (fs : FS) (src dst p : List String)
    (hs1 : ¬ p <+: src) (hs2 : ¬ src <+: p)
    (hd1 : ¬ p <+: dst) (hd2 : ¬ dst <+: p) :
    existsSyncF (renameF fs src dst) p = existsSyncF fs p := by
  unfold existsSyncF renameF
  dsimp only
  induction fs.files with
  | nil => rfl
  | cons e rest ih =>
    simp only [List.map_cons, List.any_cons]
    by_cases he : src <+: e.1
    · have hp1 : ¬ p <+: e.1 := by
        intro hc
        rcases List.prefix_or_prefix_of_prefix hc he with hx | hx
        · exact hs1 hx
        · exact hs2 hx
      have hp2 : ¬ p <+: dst ++ e.1.drop src.length := by
        intro hc
        rcases List.prefix_or_prefix_of_prefix hc
          (List.prefix_append dst (e.1.drop src.length)) with hx | hx
        · exact hd1 hx
        · exact hd2 hx
      rw [if_pos (by simp [isPrefixOf_eq_true he])]
      rw [isPrefixOf_eq_false hp1, isPrefixOf_eq_false hp2]
      simpa using ih
    · rw [if_neg (by simp [isPrefixOf_eq_false he])]
      rw [ih]

/-- Observational equality of two filesystems at a path: same read and
same existence check. -/
def ObsEq (fs' fs : FS) (p : List String) : Prop :=
  readFileF fs' p = readFileF fs p ∧ existsSyncF fs' p = existsSyncF fs p

theorem ObsEq.refl (fs : FS) (p : List String) : ObsEq fs fs p :=
  ⟨Eq.refl _, Eq.refl _⟩

theorem ObsEq.trans {a b c : FS} {p : List String}
    (h1 : ObsEq a b p) (h2 : ObsEq b c p) : ObsEq a c p :=
  ⟨h1.1.trans h2.1, h1.2.trans h2.2⟩

theorem ObsEq.write {fs : FS} {t p : List String} (d : FileData)
    (h : ¬ p <+: t) : ObsEq (writeFileF fs t d) fs p := by
  constructor
  · exact readFileF_write_ne fs t d p (fun hc => h (hc ▸ List.prefix_rfl))
  · rw [existsSyncF_write, isPrefixOf_eq_false h]
    simp

theorem ObsEq.rm {fs : FS} {d₀ p : List String}
    (h1 : ¬ p <+: d₀) (h2 : ¬ d₀ <+: p) : ObsEq (rmRecF fs d₀) fs p :=
  ⟨readFileF_rm fs d₀ p h2, existsSyncF_rm_incomp fs d₀ p h1 h2⟩

theorem ObsEq.ren {fs : FS} {src dst p : List String}
    (hs1 : ¬ p <+: src) (hs2 : ¬ src <+: p)
    (hd1 : ¬ p <+: dst) (hd2 : ¬ dst <+: p) :
    ObsEq (renameF fs src dst) fs p :=
  ⟨readFileF_rename fs src dst p hs2 hd2,
   existsSyncF_rename fs src dst p hs1 hs2 hd1 hd2⟩

theorem ObsEq.ite {a b fs : FS} {p : List String} (c : Prop) [Decidable c]
    (h1 : ObsEq a fs p) (h2 : ObsEq b fs p) :
    ObsEq (if c then a else b) fs p := by
  split
  · exact h1
  · exact h2

theorem incomp_extend {root t p : List String} (hroot : root <+: t)
    (h1 : ¬ p <+: root) (h2 : ¬ root <+: p) : ¬ p <+: t ∧ ¬ t <+: p := by
  constructor
  · intro hc
    rcases List.prefix_or_prefix_of_prefix hc hroot with hx | hx
    · exact h1 hx
    · exact h2 hx
  · intro hc
    exact h2 (hroot.trans hc)

theorem foldl_write_obs (tmpDir p : List String)
    (h1 : ¬ p <+: tmpDir) (h2 : ¬ tmpDir <+: p) :
    ∀ (entries : List (List String × FileData)) (fs : FS),
    ObsEq (entries.foldl (fun f e => writeFileF f (tmpDir ++ e.1) e.2) fs) fs p := by
  intro entries
  induction entries with
  | nil => intro fs; exact ObsEq.refl fs p
  | cons f rest ih =>
    intro fs
    rw [List.foldl_cons]
    refine (ih _).trans ?_
    exact ObsEq.write f.2 (incomp_extend (List.prefix_append tmpDir f.1) h1 h2).1

theorem downloadPrimitive_obs (reg : Registry) (k ver : String)
    (tmpDir : List String) (fs fsD : FS)
    (h : downloadPrimitive reg k ver tmpDir fs = .ok fsD)
    (p : List String) (h1 : ¬ p <+: tmpDir) (h2 : ¬ tmpDir <+: p) :
    ObsEq fsD fs p := by
  unfold downloadPrimitive at h
  cases hft : reg.fetchTags with
  | error e =>
    rw [hft] at h
    exact absurd h (by simp [bind, Except.bind])
  | ok tags =>
    rw [hft] at h
    simp only [bind, Except.bind] at h
    split at h
    · exact Except.noConfusion h
    · cases htb : reg.tarball (k ++ "/v" ++ ver) with
      | error msg =>
        rw [htb] at h
        exact Except.noConfusion h
      | ok entries =>
        rw [htb] at h
        simp only [pure, Except.pure, Except.ok.injEq] at h
        rw [← h]
        exact foldl_write_obs tmpDir p h1 h2 entries fs

/-- The disjointness condition under which one install-loop iteration for
pin key `k` cannot affect an observation at path `p`: `p` is comparable
neither with the skill directory nor with the temporary directory of
`k`. -/
def Untouched (wbPath : List String) (k : String) (p : List String) : Prop :=
  (¬ p <+: wbPath ++ ["skills", k] ∧ ¬ wbPath ++ ["skills", k] <+: p) ∧
  (¬ p <+: ["tmp", "agonda-install-" ++ k] ∧ ¬ ["tmp", "agonda-install-" ++ k] <+: p)

theorem installStep_frame (reg : Registry) (wbPath : List String) (dry : Bool)
    (fs : FS) (k v : String) (out : FS × Action)
    (h : installStep reg wbPath dry fs k v = .ok out)
    (p : List String) (hp : Untouched wbPath k p) :
    ObsEq out.1 fs p := by
  obtain ⟨⟨hs1, hs2⟩, ht1, ht2⟩ := hp
  unfold installStep at h
  dsimp only at h
  cases hdet : (if existsSyncF fs (wbPath ++ ["skills", k]) = true then
      detectInstalledVersion fs (wbPath ++ ["skills", k]) else pure none) with
  | error e =>
    rw [hdet] at h
    exact absurd h (by simp [bind, Except.bind])
  | ok installed =>
    rw [hdet] at h
    simp only [bind, Except.bind] at h
    split at h
    · simp only [pure, Except.pure, Except.ok.injEq] at h
      rw [← h]
      exact ObsEq.refl fs p
    · split at h
      · simp only [pure, Except.pure, Except.ok.injEq] at h
        rw [← h]
        exact ObsEq.refl fs p
      · cases hdl : downloadPrimitive reg k (stripV v)
            ["tmp", "agonda-install-" ++ k] fs with
        | error err =>
          rw [hdl] at h
          dsimp only at h
          simp only [pure, Except.pure, Except.ok.injEq] at h
          rw [← h]
          exact ObsEq.ite _ (ObsEq.rm ht1 ht2) (ObsEq.refl fs p)
        | ok fsD =>
          rw [hdl] at h
          dsimp only at h
          have hD : ObsEq fsD fs p :=
            downloadPrimitive_obs reg k (stripV v) _ fs fsD hdl p ht1 ht2
          by_cases hnf : (!existsSyncF fsD (["tmp", "agonda-install-" ++ k] ++ [k]))
              = true
          · rw [if_pos hnf] at h
            dsimp only at h
            simp only [pure, Except.pure, Except.ok.injEq] at h
            rw [← h]
            exact ObsEq.ite _ ((ObsEq.rm ht1 ht2).trans hD) hD
          · rw [if_neg hnf] at h
            dsimp only at h
            simp only [pure, Except.pure, Except.ok.injEq] at h
            rw [← h]
            have hX : ObsEq (writeFileF
                (renameF
                  (if existsSyncF fsD (wbPath ++ ["skills", k]) = true then
                    rmRecF fsD (wbPath ++ ["skills", k]) else fsD)
                  (["tmp", "agonda-install-" ++ k] ++ [k]) (wbPath ++ ["skills", k]))
                (wbPath ++ ["skills", k] ++ [".primitive-version"])
                (.text (stripV v))) fs p := by
              refine ObsEq.trans (ObsEq.write _
                (incomp_extend (List.prefix_append _ [".primitive-version"])
                  hs1 hs2).1) ?_
              refine ObsEq.trans (ObsEq.ren
                (incomp_extend (List.prefix_append
                  ["tmp", "agonda-install-" ++ k] [k]) ht1 ht2).1
                (incomp_extend (List.prefix_append
                  ["tmp", "agonda-install-" ++ k] [k]) ht1 ht2).2
                hs1 hs2) ?_
              exact (ObsEq.ite _ (ObsEq.rm hs1 hs2) (ObsEq.refl fsD p)).trans hD
            exact ObsEq.ite _ ((ObsEq.rm ht1 ht2).trans hX) hX

theorem installLoop_frame (reg : Registry) (wbPath : List String) (dry : Bool)
    (pins : List (String × String)) :
    ∀ (fs : FS) (acts : List Action) (out : FS × List Action),
    installLoop reg wbPath dry pins fs acts = .ok out →
    ∀ p, (∀ kv ∈ pins, Untouched wbPath kv.1 p) → ObsEq out.1 fs p := by
  induction pins with
  | nil =>
    intro fs acts out h p _
    simp only [installLoop, pure, Except.pure, Except.ok.injEq] at h
    rw [← h]
    exact ObsEq.refl fs p
  | cons kv rest ih =>
    intro fs acts out h p hunt
    unfold installLoop at h
    cases hstep : installStep reg wbPath dry fs kv.1 kv.2 with
    | error e =>
      rw [hstep] at h
      exact absurd h (by simp [bind, Except.bind])
    | ok r =>
      rw [hstep] at h
      simp only [bind, Except.bind] at h
      refine ObsEq.trans (ih r.1 (acts ++ [r.2]) out h p
        (fun kv' h' => hunt kv' (by simp [h']))) ?_
      exact installStep_frame reg wbPath dry fs kv.1 kv.2 r hstep p
        (hunt kv (by simp))

theorem installLoop_length (reg : Registry) (wbPath : List String) (dry : Bool)
    (pins : List (String × String)) :
    ∀ (fs : FS) (acts : List Action) (out : FS × List Action),
    installLoop reg wbPath dry pins fs acts = .ok out →
    out.2.length = acts.length + pins.length := by
  induction pins with
  | nil =>
    intro fs acts out h
    simp only [installLoop, pure, Except.pure, Except.ok.injEq] at h
    rw [← h]
    simp
  | cons kv rest ih =>
    intro fs acts out h
    unfold installLoop at h
    cases hstep : installStep reg wbPath dry fs kv.1 kv.2 with
    | error e =>
      rw [hstep] at h
      exact absurd h (by simp [bind, Except.bind])
    | ok r =>
      rw [hstep] at h
      simp only [bind, Except.bind] at h
      have := ih r.1 (acts ++ [r.2]) out h
      simp only [List.length_append, List.length_cons, List.length_nil] at this ⊢
      omega

theorem manifest_untouched (wbPath : List String)
    (htmp : ["tmp"].isPrefixOf wbPath = false) (k : String) :
    Untouched wbPath k (wbPath ++ ["workbench.json"]) := by
  have htmp' : ¬ (["tmp"] : List String) <+: wbPath := by
    intro hc
    rw [isPrefixOf_eq_true hc] at htmp
    simp at htmp
  refine ⟨⟨?_, ?_⟩, ?_, ?_⟩
  · rw [List.prefix_append_right_inj]
    intro hc
    rw [List.cons_prefix_cons] at hc
    exact absurd hc.1 (by decide)
  · rw [List.prefix_append_right_inj]
    intro hc
    rw [List.cons_prefix_cons] at hc
    exact absurd hc.1 (by decide)
  · intro hc
    cases wbPath with
    | nil =>
      rw [List.nil_append, List.cons_prefix_cons] at hc
      exact absurd hc.1 (by decide)
    | cons w ws =>
      rw [List.cons_append, List.cons_prefix_cons] at hc
      exact htmp' (List.cons_prefix_cons.mpr ⟨hc.1.symm, List.nil_prefix⟩)
  · intro hc
    cases wbPath with
    | nil =>
      rw [List.nil_append, List.cons_prefix_cons] at hc
      exact absurd hc.1 (by decide)
    | cons w ws =>
      rw [List.cons_append, List.cons_prefix_cons] at hc
      exact htmp' (List.cons_prefix_cons.mpr ⟨hc.1, List.nil_prefix⟩)

/-- C3: on every real (non-dry-run) `installPrimitives` run with `update`
set, on a workbench declaring at least one primitive, the bumped pins are
persisted to `workbench.json` on disk after the whole install loop has
attempted every pin (one action per pin): the written `primitives`
property is exactly the in-memory bumped pin map, regardless of which
actions — `failed` included — the loop produced. -/
theorem installPrimitives_update_persists (reg : Registry) (wb : WorkbenchInfo)
    (fs : FS) (morig : List (String × JVal))
    (hne : wb.primitives ≠ [])
    (htmp : (["tmp"] : List String).isPrefixOf wb.path = false)
    (hman : readFileF fs (wb.path ++ ["workbench.json"]) =
      some (.json (.obj morig))) :
    ∀ fs' res, installPrimitives reg wb { update := true, dryRun := false } fs =
      .ok (fs', res) →
    readFileF fs' (wb.path ++ ["workbench.json"]) =
      some (.json (.obj (jSetFields morig "primitives"
        (.obj ((bumpPins reg wb.primitives).map
          (fun kv => (kv.1, JVal.str kv.2))))))) ∧
    res.actions.length = wb.primitives.length := by
  intro fs' res h
  unfold installPrimitives at h
  rw [if_neg (by simpa [List.isEmpty_iff] using hne)] at h
  dsimp only at h
  simp only [Bool.not_false, Bool.and_self, eq_self_iff_true, if_true] at h
  cases hloop : installLoop reg wb.path false (bumpPins reg wb.primitives) fs []
      with
  | error e =>
    rw [hloop] at h
    exact absurd h (by simp [bind, Except.bind])
  | ok pr =>
    rw [hloop] at h
    simp only [bind, Except.bind] at h
    have hobs := installLoop_frame reg wb.path false (bumpPins reg wb.primitives)
      fs [] pr hloop (wb.path ++ ["workbench.json"])
      (fun kv _ => manifest_untouched wb.path htmp kv.1)
    rw [show readFileF pr.1 (wb.path ++ ["workbench.json"]) =
      some (.json (.obj morig)) from hobs.1.trans hman] at h
    dsimp only at h
    simp only [pure, Except.pure, Except.ok.injEq] at h
    constructor
    · have hfs' : writeFileF pr.1 (wb.path ++ ["workbench.json"])
          (.json (.obj (jSetFields morig "primitives"
            (.obj ((bumpPins reg wb.primitives).map
              (fun kv => (kv.1, JVal.str kv.2))))))) = fs' := congrArg Prod.fst h
      rw [← hfs']
      exact readFileF_write_self pr.1 _ _
    · have hres := congrArg Prod.snd h
      dsimp only at hres
      rw [← hres]
      have hlen := installLoop_length reg wb.path false
        (bumpPins reg wb.primitives) fs [] pr hloop
      simpa [bumpPins] using hlen

/-- Witness for C3: the single pin bumps from v1.0.0 to v2.0.0, its
download fails (`action = failed`), yet the manifest on disk is rewritten
with the bumped pin v2.0.0. -/
theorem installPrimitives_update_persists_witness :
    ∃ fs' res,
      installPrimitives
        ⟨.ok [⟨"compound-learning/v2.0.0", "a"⟩], fun _ => .error "network down"⟩
        { name := "wb", relativePath := "wb", path := ["repo", "wb"],
          primitives := [("compound-learning", "v1.0.0")] }
        { update := true, dryRun := false }
        ⟨[(["repo", "wb", "workbench.json"],
            .json (.obj [("name", .str "wb"),
              ("primitives", .obj [("compound-learning", .str "v1.0.0")])]))]⟩ =
        .ok (fs', res) ∧
      readFileF fs' (["repo", "wb"] ++ ["workbench.json"]) =
        some (.json (.obj (jSetFields
          [("name", .str "wb"),
           ("primitives", .obj [("compound-learning", .str "v1.0.0")])]
          "primitives"
          (.obj ((bumpPins
            ⟨.ok [⟨"compound-learning/v2.0.0", "a"⟩, ], fun _ => .error "network down"⟩
            [("compound-learning", "v1.0.0")]).map
              (fun kv => (kv.1, JVal.str kv.2))))))) ∧
      res.actions.length = 1 ∧
      res.actions.map (fun a => a.action) = [ActKind.failed] := by
  have heval : installPrimitives
      ⟨.ok [⟨"compound-learning/v2.0.0", "a"⟩], fun _ => .error "network down"⟩
      { name := "wb", relativePath := "wb", path := ["repo", "wb"],
        primitives := [("compound-learning", "v1.0.0")] }
      { update := true, dryRun := false }
      ⟨[(["repo", "wb", "workbench.json"],
          .json (.obj [("name", .str "wb"),
            ("primitives", .obj [("compound-learning", .str "v1.0.0")])]))]⟩ =
      .ok (⟨[(["repo", "wb", "workbench.json"],
          .json (.obj [("name", .str "wb"),
            ("primitives", .obj [("compound-learning", .str "v2.0.0")])]))]⟩,
        { workbench := "wb", path := "wb",
          actions := [{ name := "compound-learning", action := .failed,
                        version := "2.0.0",
                        reason := some
                          "Failed to download compound-learning@2.0.0: network down" }] })
      := by rfl
  have h := installPrimitives_update_persists
    ⟨.ok [⟨"compound-learning/v2.0.0", "a"⟩], fun _ => .error "network down"⟩
    { name := "wb", relativePath := "wb", path := ["repo", "wb"],
      primitives := [("compound-learning", "v1.0.0")] }
    ⟨[(["repo", "wb", "workbench.json"],
        .json (.obj [("name", .str "wb"),
          ("primitives", .obj [("compound-learning", .str "v1.0.0")])]))]⟩
    [("name", .str "wb"),
     ("primitives", .obj [("compound-learning", .str "v1.0.0")])]
    (by decide) (by decide) rfl _ _ heval
  exact ⟨_, _, heval, h.1, by rfl, by rfl⟩

/-! ## Marker-based re-install (C9) -/

theorem under_wb_untouched_tmp (wbPath : List String)
    (htmp : (["tmp"] : List String).isPrefixOf wbPath = false)
    (seg : String) (hseg : seg ≠ "tmp") (rest : List String) (tk : String) :
    ¬ (wbPath ++ seg :: rest) <+: ["tmp", tk] ∧
    ¬ (["tmp", tk] : List String) <+: (wbPath ++ seg :: rest) := by
  have htmp' : ¬ (["tmp"] : List String) <+: wbPath := by
    intro hc
    rw [isPrefixOf_eq_true hc] at htmp
    simp at htmp
  constructor
  · intro hc
    cases wbPath with
    | nil =>
      rw [List.nil_append, List.cons_prefix_cons] at hc
      exact hseg hc.1
    | cons w ws =>
      rw [List.cons_append, List.cons_prefix_cons] at hc
      exact htmp' (List.cons_prefix_cons.mpr ⟨hc.1.symm, List.nil_prefix⟩)
  · intro hc
    cases wbPath with
    | nil =>
      rw [List.nil_append, List.cons_prefix_cons] at hc
      exact hseg hc.1.symm
    | cons w ws =>
      rw [List.cons_append, List.cons_prefix_cons] at hc
      exact htmp' (List.cons_prefix_cons.mpr ⟨hc.1, List.nil_prefix⟩)

theorem skill_untouched (wbPath : List String)
    (htmp : (["tmp"] : List String).isPrefixOf wbPath = false)
    (k' k₀ : String) (hne : k' ≠ k₀) (rest : List String) :
    Untouched wbPath k' (wbPath ++ "skills" :: k₀ :: rest) := by
  refine ⟨⟨?_, ?_⟩,
    under_wb_untouched_tmp wbPath htmp "skills" (by decide) (k₀ :: rest) _⟩
  · rw [List.prefix_append_right_inj]
    intro hc
    rw [List.cons_prefix_cons] at hc
    obtain ⟨-, hc⟩ := hc
    rw [List.cons_prefix_cons] at hc
    exact hne hc.1.symm
  · rw [List.prefix_append_right_inj]
    intro hc
    rw [List.cons_prefix_cons] at hc
    obtain ⟨-, hc⟩ := hc
    rw [List.cons_prefix_cons] at hc
    exact hne hc.1

theorem existsSyncF_foldl_write_mono (tmpDir : List String)
    (entries : List (List String × FileData)) :
    ∀ (fs : FS) (p : List String), existsSyncF fs p = true →
    existsSyncF (entries.foldl (fun f e => writeFileF f (tmpDir ++ e.1) e.2) fs) p
      = true := by
  induction entries with
  | nil => intro fs p h; exact h
  | cons f rest ih =>
    intro fs p h
    rw [List.foldl_cons]
    apply ih
    rw [existsSyncF_write, h]
    simp

theorem foldl_write_exists (tmpDir : List String) (q : List String)
    (entries : List (List String × FileData))
    (hq : entries.any (fun f => q.isPrefixOf f.1) = true) :
    ∀ (fs : FS),
    existsSyncF (entries.foldl (fun f e => writeFileF f (tmpDir ++ e.1) e.2) fs)
      (tmpDir ++ q) = true := by
  induction entries with
  | nil => intro fs; simp at hq
  | cons f rest ih =>
    intro fs
    rw [List.foldl_cons]
    simp only [List.any_cons, Bool.or_eq_true] at hq
    by_cases hf : q.isPrefixOf f.1 = true
    · apply existsSyncF_foldl_write_mono
      rw [existsSyncF_write]
      have : (tmpDir ++ q).isPrefixOf (tmpDir ++ f.1) = true := by
        apply isPrefixOf_eq_true
        rw [List.prefix_append_right_inj]
        exact List.isPrefixOf_iff_prefix.mp hf
      rw [this]
      simp
    · apply ih
      rcases hq with h | h
      · exact absurd h hf
      · exact h

theorem installStep_fresh (reg : Registry) (wbPath : List String) (fs : FS)
    (k v : String) (tags : List Tag) (files : List (List String × FileData))
    (htmp : (["tmp"] : List String).isPrefixOf wbPath = false)
    (hdir : existsSyncF fs (wbPath ++ ["skills", k]) = true)
    (hnomark : existsSyncF fs (wbPath ++ ["skills", k, ".primitive-version"]) = false)
    (hft : reg.fetchTags = .ok tags)
    (htag : tags.any (fun t => t.name == k ++ "/v" ++ stripV v) = true)
    (htar : reg.tarball (k ++ "/v" ++ stripV v) = .ok files)
    (hsub : files.any (fun f => (([k] : List String)).isPrefixOf f.1) = true) :
    ∃ fs₂, installStep reg wbPath false fs k v =
      .ok (fs₂, { name := k, action := .installed, version := stripV v,
                  fromV := some none }) ∧
      readFileF fs₂ (wbPath ++ ["skills", k, ".primitive-version"]) =
        some (.text (stripV v)) := by
  have hnomark2 : existsSyncF fs ((wbPath ++ ["skills", k]) ++
      [".primitive-version"]) = false := by
    rw [List.append_assoc]
    exact hnomark
  have hdet : (if existsSyncF fs (wbPath ++ ["skills", k]) = true then
      detectInstalledVersion fs (wbPath ++ ["skills", k]) else pure none) =
      (.ok none : Except JErr (Option String)) := by
    rw [if_pos hdir]
    unfold detectInstalledVersion
    rw [if_neg (by rw [hnomark2]; simp)]
    rfl
  have hdl : downloadPrimitive reg k (stripV v)
      ["tmp", "agonda-install-" ++ k] fs =
      .ok (files.foldl (fun f e =>
        writeFileF f (["tmp", "agonda-install-" ++ k] ++ e.1) e.2) fs) := by
    unfold downloadPrimitive
    rw [hft]
    simp only [bind, Except.bind]
    rw [if_neg (by rw [htag]; simp)]
    rw [htar]
    rfl
  have hdld : existsSyncF (files.foldl (fun f e =>
      writeFileF f (["tmp", "agonda-install-" ++ k] ++ e.1) e.2) fs)
      (["tmp", "agonda-install-" ++ k] ++ [k]) = true :=
    foldl_write_exists _ [k] files hsub fs
  have hskl : existsSyncF (files.foldl (fun f e =>
      writeFileF f (["tmp", "agonda-install-" ++ k] ++ e.1) e.2) fs)
      (wbPath ++ ["skills", k]) = true :=
    existsSyncF_foldl_write_mono _ files fs _ hdir
  have htmpmark := under_wb_untouched_tmp wbPath htmp "skills" (by decide)
    [k, ".primitive-version"] ("agonda-install-" ++ k)
  have heval : installStep reg wbPath false fs k v =
      .ok ((if existsSyncF (writeFileF (renameF (rmRecF (files.foldl (fun f e =>
          writeFileF f (["tmp", "agonda-install-" ++ k] ++ e.1) e.2) fs)
          (wbPath ++ ["skills", k])) (["tmp", "agonda-install-" ++ k] ++ [k])
          (wbPath ++ ["skills", k]))
          ((wbPath ++ ["skills", k]) ++ [".primitive-version"])
          (.text (stripV v))) ["tmp", "agonda-install-" ++ k] = true then
        rmRecF (writeFileF (renameF (rmRecF (files.foldl (fun f e =>
          writeFileF f (["tmp", "agonda-install-" ++ k] ++ e.1) e.2) fs)
          (wbPath ++ ["skills", k])) (["tmp", "agonda-install-" ++ k] ++ [k])
          (wbPath ++ ["skills", k]))
          ((wbPath ++ ["skills", k]) ++ [".primitive-version"])
          (.text (stripV v))) ["tmp", "agonda-install-" ++ k]
      else writeFileF (renameF (rmRecF (files.foldl (fun f e =>
          writeFileF f (["tmp", "agonda-install-" ++ k] ++ e.1) e.2) fs)
          (wbPath ++ ["skills", k])) (["tmp", "agonda-install-" ++ k] ++ [k])
          (wbPath ++ ["skills", k]))
          ((wbPath ++ ["skills", k]) ++ [".primitive-version"])
          (.text (stripV v))),
        { name := k, action := .installed, version := stripV v,
          fromV := some none }) := by
    unfold installStep
    dsimp only
    rw [hdet]
    simp only [bind, Except.bind]
    rw [if_neg (by simp)]
    simp only [Bool.false_eq_true, if_false]
    rw [hdl]
    dsimp only
    simp only [hdld, Bool.not_true, Bool.false_eq_true, if_false, hskl,
      eq_self_iff_true, if_true, Option.isSome_none]
    rfl
  refine ⟨_, heval, ?_⟩
  rw [show wbPath ++ ["skills", k, ".primitive-version"] =
    (wbPath ++ ["skills", k]) ++ [".primitive-version"] from by
      rw [List.append_assoc]; rfl]
  split
  · rw [readFileF_rm]
    · exact readFileF_write_self _ _ _
    · intro hc
      rw [List.append_assoc] at hc
      exact htmpmark.2 hc
  · exact readFileF_write_self _ _ _

theorem installLoop_cons (reg : Registry) (wbPath : List String) (dry : Bool)
    (kv : String × String) (rest : List (String × String)) (fs : FS)
    (acts : List Action) :
    installLoop reg wbPath dry (kv :: rest) fs acts =
      match installStep reg wbPath dry fs kv.1 kv.2 with
      | .error e => .error e
      | .ok r => installLoop reg wbPath dry rest r.1 (acts ++ [r.2]) := by
  conv_lhs => unfold installLoop
  simp only [bind, Except.bind]
  cases installStep reg wbPath dry fs kv.1 kv.2 <;> rfl

theorem installLoop_append (reg : Registry) (wbPath : List String) (dry : Bool)
    (l₁ l₂ : List (String × String)) :
    ∀ (fs : FS) (acts : List Action),
    installLoop reg wbPath dry (l₁ ++ l₂) fs acts =
      match installLoop reg wbPath dry l₁ fs acts with
      | .error e => .error e
      | .ok r => installLoop reg wbPath dry l₂ r.1 r.2 := by
  induction l₁ with
  | nil =>
    intro fs acts
    rw [List.nil_append]
    rfl
  | cons kv rest ih =>
    intro fs acts
    rw [List.cons_append]
    rw [installLoop_cons, installLoop_cons]
    cases hstep : installStep reg wbPath dry fs kv.1 kv.2 with
    | error e => rfl
    | ok r => exact ih r.1 (acts ++ [r.2])

theorem installLoop_prefix (reg : Registry) (wbPath : List String) (dry : Bool)
    (pins : List (String × String)) :
    ∀ (fs : FS) (acts : List Action) (out : FS × List Action),
    installLoop reg wbPath dry pins fs acts = .ok out →
    ∃ ext, out.2 = acts ++ ext := by
  induction pins with
  | nil =>
    intro fs acts out h
    simp only [installLoop, pure, Except.pure, Except.ok.injEq] at h
    refine ⟨[], ?_⟩
    rw [← h]
    simp
  | cons kv rest ih =>
    intro fs acts out h
    unfold installLoop at h
    cases hstep : installStep reg wbPath dry fs kv.1 kv.2 with
    | error e =>
      rw [hstep] at h
      exact absurd h (by simp [bind, Except.bind])
    | ok r =>
      rw [hstep] at h
      simp only [bind, Except.bind] at h
      obtain ⟨ext, hext⟩ := ih r.1 (acts ++ [r.2]) out h
      refine ⟨r.2 :: ext, ?_⟩
      rw [hext]
      simp

/-- C9: idempotence detection relies solely on the `.primitive-version`
marker file, never on directory existence or content: on a real
(non-dry-run, non-update) `installPrimitives` run, a pin whose skill
directory exists on disk but carries no marker file is detected as
installed = null, hence never reported `skipped`: the directory is
removed and replaced by a fresh download, the reported action for that
pin is `installed` (not `updated`) with `from = null`, and the marker
file afterwards holds the v-stripped pinned version. -/
theorem installPrimitives_marker_only (reg : Registry) (wb : WorkbenchInfo)
    (fs : FS) (pre suf : List (String × String)) (k v : String)
    (tags : List Tag) (files : List (List String × FileData))
    (fsF : FS) (res : InstallResult)
    (hpins : wb.primitives = pre ++ (k, v) :: suf)
    (hkpre : ∀ kv ∈ pre, kv.1 ≠ k)
    (hksuf : ∀ kv ∈ suf, kv.1 ≠ k)
    (htmp : (["tmp"] : List String).isPrefixOf wb.path = false)
    (hdir : existsSyncF fs (wb.path ++ ["skills", k]) = true)
    (hnomark : existsSyncF fs (wb.path ++ ["skills", k, ".primitive-version"])
      = false)
    (hft : reg.fetchTags = .ok tags)
    (htag : tags.any (fun t => t.name == k ++ "/v" ++ stripV v) = true)
    (htar : reg.tarball (k ++ "/v" ++ stripV v) = .ok files)
    (hsub : files.any (fun f => ([k] : List String).isPrefixOf f.1) = true)
    (hrun : installPrimitives reg wb { update := false, dryRun := false } fs
      = .ok (fsF, res)) :
    res.actions[pre.length]? = some { name := k, action := .installed,
                                      version := stripV v,
                                      fromV := some none } ∧
    readFileF fsF (wb.path ++ ["skills", k, ".primitive-version"])
      = some (.text (stripV v)) := by
  unfold installPrimitives at hrun
  rw [hpins] at hrun
  have hne : (pre ++ (k, v) :: suf).isEmpty = false := by
    cases pre <;> rfl
  dsimp only at hrun
  simp only [hne, Bool.false_eq_true, if_false, Bool.false_and,
    bind, Except.bind, pure, Except.pure] at hrun
  rw [installLoop_append reg wb.path false pre ((k, v) :: suf) fs []] at hrun
  cases hpre : installLoop reg wb.path false pre fs [] with
  | error e =>
    rw [hpre] at hrun
    dsimp only at hrun
    exact Except.noConfusion hrun
  | ok r₁ =>
    rw [hpre] at hrun
    dsimp only at hrun
    have hobs_dir := installLoop_frame reg wb.path false pre fs [] r₁ hpre
      (wb.path ++ ["skills", k])
      (fun kv hm => skill_untouched wb.path htmp kv.1 k (hkpre kv hm) [])
    have hobs_mark := installLoop_frame reg wb.path false pre fs [] r₁ hpre
      (wb.path ++ ["skills", k, ".primitive-version"])
      (fun kv hm =>
        skill_untouched wb.path htmp kv.1 k (hkpre kv hm) [".primitive-version"])
    have hdir₁ : existsSyncF r₁.1 (wb.path ++ ["skills", k]) = true := by
      rw [hobs_dir.2]
      exact hdir
    have hnomark₁ :
        existsSyncF r₁.1 (wb.path ++ ["skills", k, ".primitive-version"])
          = false := by
      rw [hobs_mark.2]
      exact hnomark
    obtain ⟨fs₂, hstep, hmark⟩ := installStep_fresh reg wb.path r₁.1 k v tags
      files htmp hdir₁ hnomark₁ hft htag htar hsub
    unfold installLoop at hrun
    rw [hstep] at hrun
    simp only [bind, Except.bind] at hrun
    cases hloop : installLoop reg wb.path false suf fs₂
        (r₁.2 ++ [{ name := k, action := .installed, version := stripV v,
                    fromV := some none }]) with
    | error e =>
      rw [hloop] at hrun
      exact Except.noConfusion hrun
    | ok r =>
      rw [hloop] at hrun
      simp only [Except.ok.injEq] at hrun
      have h1 : r.1 = fsF := congrArg Prod.fst hrun
      have h2 := congrArg Prod.snd hrun
      dsimp only at h2
      have hlen := installLoop_length reg wb.path false pre fs [] r₁ hpre
      simp only [List.length_nil, Nat.zero_add] at hlen
      obtain ⟨ext, hext⟩ := installLoop_prefix reg wb.path false suf fs₂
        (r₁.2 ++ [{ name := k, action := .installed, version := stripV v,
                    fromV := some none }]) r hloop
    
      have hobs2 := installLoop_frame reg wb.path false suf fs₂
        (r₁.2 ++ [{ name := k, action := .installed, version := stripV v,
                    fromV := some none }]) r hloop
        (wb.path ++ ["skills", k, ".primitive-version"])
        (fun kv hm =>
          skill_untouched wb.path htmp kv.1 k (hksuf kv hm) [".primitive-version"])
      constructor
      · rw [← h2]
        dsimp only
        rw [hext, List.getElem?_append_left
          (by rw [List.length_append, List.length_cons, List.length_nil, hlen]
              omega)]
        rw [← hlen]
        exact List.getElem?_concat_length r₁.2 _
      · rw [← h1, hobs2.1]
        exact hmark

theorem installPrimitives_marker_only_witness :
    ∃ fsF res,
      installPrimitives
        ⟨.ok [⟨"a/v1.0.0", "s"⟩],
         fun r => if r = "a/v1.0.0" then
           .ok [(["a", "SKILL.md"], FileData.text "hello")] else .error "bad"⟩
        { name := "wb", relativePath := "wb", path := ["repo", "wb"],
          primitives := [("a", "v1.0.0")] }
        { update := false, dryRun := false }
        ⟨[(["repo", "wb", "skills", "a", "old.md"], FileData.text "old")]⟩ =
        .ok (fsF, res) ∧
      res.actions[0]? = some { name := "a", action := .installed,
                               version := "1.0.0", fromV := some none } ∧
      readFileF fsF (["repo", "wb"] ++ ["skills", "a", ".primitive-version"]) =
        some (.text "1.0.0") := by
  have heval : installPrimitives
      ⟨.ok [⟨"a/v1.0.0", "s"⟩],
       fun r => if r = "a/v1.0.0" then
         .ok [(["a", "SKILL.md"], FileData.text "hello")] else .error "bad"⟩
      { name := "wb", relativePath := "wb", path := ["repo", "wb"],
        primitives := [("a", "v1.0.0")] }
      { update := false, dryRun := false }
      ⟨[(["repo", "wb", "skills", "a", "old.md"], FileData.text "old")]⟩ =
      .ok (⟨[(["repo", "wb", "skills", "a", "SKILL.md"], FileData.text "hello"),
             (["repo", "wb", "skills", "a", ".primitive-version"],
              FileData.text "1.0.0")]⟩,
        { workbench := "wb", path := "wb",
          actions := [{ name := "a", action := .installed, version := "1.0.0",
                        fromV := some none }] }) := by rfl
  have h := installPrimitives_marker_only
    ⟨.ok [⟨"a/v1.0.0", "s"⟩],
     fun r => if r = "a/v1.0.0" then
       .ok [(["a", "SKILL.md"], FileData.text "hello")] else .error "bad"⟩
    { name := "wb", relativePath := "wb", path := ["repo", "wb"],
      primitives := [("a", "v1.0.0")] }
    ⟨[(["repo", "wb", "skills", "a", "old.md"], FileData.text "old")]⟩
    [] [] "a" "v1.0.0" [⟨"a/v1.0.0", "s"⟩]
    [(["a", "SKILL.md"], FileData.text "hello")] _ _
    rfl (by simp) (by simp) (by decide) (by decide) (by decide)
    rfl (by decide) rfl (by decide) heval
  exact ⟨_, _, heval, h.1, h.2⟩

theorem marketLoop_null_aborts (fs : FS) (repoRoot : List String)
    (vw : List String → WbResult) (rest : List JVal) (errs : List String)
    (wbs : List WbResult) :
    marketLoop fs repoRoot vw (JVal.null :: rest) errs wbs =
      .error (.typeError "Cannot read properties of null (reading 'source')") := by
  conv_lhs => unfold marketLoop
  rfl

theorem marketLoop_spec (fs : FS) (repoRoot : List String)
    (vw : List String → WbResult) (plugins : List JVal)
    (hnn : ∀ p ∈ plugins, p.isNull = false)
    (hok : ∀ p ∈ plugins, (((jGet p "source").map jTruthy).getD false) = true →
      ∃ s, jGet p "source" = some (.str s)) :
    ∀ (errs : List String) (wbs : List WbResult),
    marketLoop fs repoRoot vw plugins errs wbs =
      .ok (errs ++ plugins.flatMap (pluginManifestErrs fs repoRoot),
           wbs ++ plugins.flatMap (pluginWbResults fs repoRoot vw)) := by
  induction plugins with
  | nil =>
    intro errs wbs
    simp [marketLoop, pure, Except.pure]
  | cons p rest ih =>
    intro errs wbs
    have ihr := ih (fun q hq => hnn q (by simp [hq]))
      (fun q hq hc => hok q (by simp [hq]) hc)
    have hpn : p.isNull = false := hnn p (by simp)
    conv_lhs => unfold marketLoop
    dsimp only
    simp only [hpn, Bool.false_eq_true, if_false]
    cases hc : (((jGet p "source").map jTruthy).getD false) with
    | false =>
      simp only [hc, Bool.not_false, if_true]
      rw [ihr]
      simp only [List.flatMap_cons, pluginManifestErrs, pluginWbResults, hc,
        hpn, Bool.not_false, Bool.false_eq_true, if_false, if_true,
        List.append_assoc, List.nil_append,
        List.singleton_append, List.cons_append, List.append_nil]
    | true =>
      obtain ⟨s, hs⟩ := hok p (by simp) hc
      have hc2 : (Option.map jTruthy (some (JVal.str s))).getD false = true := by
        rw [← hs]
        exact hc
      simp only [hc, hs, Bool.not_true, Bool.false_eq_true, if_false]
      cases he : existsSyncF fs (resolvePath repoRoot s) with
      | false =>
        simp only [he, Bool.not_false, if_true]
        rw [ihr]
        simp only [List.flatMap_cons, pluginManifestErrs, pluginWbResults, hc,
          hc2, hs, he, hpn, Bool.not_true, Bool.not_false, Bool.false_eq_true,
          if_false, if_true, List.append_assoc, List.nil_append,
          List.singleton_append, List.cons_append, List.append_nil]
      | true =>
        simp only [he, Bool.not_true, Bool.false_eq_true, if_false]
        rw [ihr]
        simp only [List.flatMap_cons, pluginManifestErrs, pluginWbResults, hc,
          hc2, hs, he, hpn, Bool.not_true, Bool.not_false, Bool.false_eq_true,
          if_false, if_true, List.append_assoc, List.nil_append,
          List.singleton_append, List.cons_append, List.append_nil]

/-- C7: on a marketplace manifest that exists, parses, and lists a
non-empty `plugins` array with no `null` entry (a `null` entry makes the
`plugin.source` property read throw an uncaught TypeError, aborting the
whole call — `marketLoop_null_aborts`) in which every truthy `source` is
a string, `validateMarketplace` returns, in plugin order, the
concatenation of each plugin entry's own manifest-level errors and
per-workbench results,
where: an entry without truthy `source` contributes exactly one error
naming the plugin (or "(unnamed)") and no workbench result; an entry
whose source path does not exist on disk contributes exactly one error
naming the plugin and the missing path and no workbench result; and an
entry whose source path exists contributes no error and exactly its
structural validation result. -/
theorem validateMarketplace_source_cascade (fs : FS) (repoRoot : List String)
    (vw : List String → WbResult) (mj : JVal) (plugins : List JVal)
    (hx : existsSyncF fs (repoRoot ++ [".claude-plugin", "marketplace.json"])
      = true)
    (hr : readFileF fs (repoRoot ++ [".claude-plugin", "marketplace.json"])
      = some (.json mj))
    (hmj : mj ≠ .null)
    (hpl : jGet mj "plugins" = some (.arr plugins))
    (hne : plugins.isEmpty = false)
    (hnn : ∀ p ∈ plugins, p.isNull = false)
    (hok : ∀ p ∈ plugins, (((jGet p "source").map jTruthy).getD false) = true →
      ∃ s, jGet p "source" = some (.str s)) :
    validateMarketplace fs repoRoot vw =
      .ok (plugins.flatMap (pluginManifestErrs fs repoRoot),
           plugins.flatMap (pluginWbResults fs repoRoot vw)) ∧
    (∀ p, p.isNull = false →
      (((jGet p "source").map jTruthy).getD false) = false →
      pluginManifestErrs fs repoRoot p =
        ["Plugin \"" ++ nameOrUnnamed (jGet p "name") ++
          "\": missing \"source\" field"] ∧
      pluginWbResults fs repoRoot vw p = []) ∧
    (∀ p s, jGet p "source" = some (.str s) → jTruthy (.str s) = true →
      existsSyncF fs (resolvePath repoRoot s) = false →
      pluginManifestErrs fs repoRoot p =
        ["Plugin \"" ++ nameDisplay (jGet p "name") ++
          "\": source path does not exist: " ++ s] ∧
      pluginWbResults fs repoRoot vw p = []) ∧
    (∀ p s, jGet p "source" = some (.str s) → jTruthy (.str s) = true →
      existsSyncF fs (resolvePath repoRoot s) = true →
      pluginManifestErrs fs repoRoot p = [] ∧
      pluginWbResults fs repoRoot vw p = [vw (resolvePath repoRoot s)]) := by
  refine ⟨?_, ?_, ?_, ?_⟩
  · unfold validateMarketplace
    dsimp only
    simp only [hx, Bool.not_true, Bool.false_eq_true, if_false]
    rw [hr]
    cases hmjv : mj with
    | null => exact absurd hmjv hmj
    | bool b => rw [hmjv] at hpl; exact absurd hpl (by simp [jGet])
    | num n => rw [hmjv] at hpl; exact absurd hpl (by simp [jGet])
    | str s => rw [hmjv] at hpl; exact absurd hpl (by simp [jGet])
    | arr es => rw [hmjv] at hpl; exact absurd hpl (by simp [jGet])
    | obj fields =>
      dsimp only
      rw [← hmjv, hpl]
      dsimp only
      simp only [hne, Bool.false_eq_true, if_false]
      rw [marketLoop_spec fs repoRoot vw plugins hnn hok [] []]
      simp
  · intro p hpn hp
    constructor
    · unfold pluginManifestErrs
      simp only [hpn, Bool.false_eq_true, if_false]
      rw [hp]
      rfl
    · unfold pluginWbResults
      simp only [hpn, Bool.false_eq_true, if_false]
      rw [hp]
      rfl
  · intro p s hs htr hxx
    have hpn : p.isNull = false := by
      cases p
      case null =>
        rw [show jGet JVal.null "source" = none from rfl] at hs
        exact Option.noConfusion hs
      all_goals rfl
    have hc : (((jGet p "source").map jTruthy).getD false) = true := by
      rw [hs]
      exact htr
    constructor
    · unfold pluginManifestErrs
      simp only [hpn, Bool.false_eq_true, if_false]
      rw [hc, hs]
      simp only [Bool.not_true, Bool.false_eq_true, if_false]
      rw [hxx]
      rfl
    · unfold pluginWbResults
      simp only [hpn, Bool.false_eq_true, if_false]
      rw [hc, hs]
      simp only [Bool.not_true, Bool.false_eq_true, if_false]
      rw [hxx]
      rfl
  · intro p s hs htr hxx
    have hpn : p.isNull = false := by
      cases p
      case null =>
        rw [show jGet JVal.null "source" = none from rfl] at hs
        exact Option.noConfusion hs
      all_goals rfl
    have hc : (((jGet p "source").map jTruthy).getD false) = true := by
      rw [hs]
      exact htr
    constructor
    · unfold pluginManifestErrs
      simp only [hpn, Bool.false_eq_true, if_false]
      rw [hc, hs]
      simp only [Bool.not_true, Bool.false_eq_true, if_false]
      rw [hxx]
      rfl
    · unfold pluginWbResults
      simp only [hpn, Bool.false_eq_true, if_false]
      rw [hc, hs]
      simp only [Bool.not_true, Bool.false_eq_true, if_false]
      rw [hxx]
      rfl

theorem validateMarketplace_source_cascade_witness :
    validateMarketplace
      ⟨[(["repo", ".claude-plugin", "marketplace.json"],
         FileData.json (.obj [("plugins", .arr
           [.obj [("name", .str "a"), ("source", .str "wbs/ok")],
            .obj [("name", .str "b"), ("source", .str "missing")],
            .obj [("name", .str "c")]])])),
        (["repo", "wbs", "ok", "plugin.json"], FileData.text "x")]⟩
      ["repo"]
      (fun p => ⟨String.intercalate "/" p, [], []⟩) =
    .ok (["Plugin \"b\": source path does not exist: missing",
          "Plugin \"c\": missing \"source\" field"],
         [⟨"repo/wbs/ok", [], []⟩]) := by
  have h := validateMarketplace_source_cascade
    ⟨[(["repo", ".claude-plugin", "marketplace.json"],
       FileData.json (.obj [("plugins", .arr
         [.obj [("name", .str "a"), ("source", .str "wbs/ok")],
          .obj [("name", .str "b"), ("source", .str "missing")],
          .obj [("name", .str "c")]])])),
      (["repo", "wbs", "ok", "plugin.json"], FileData.text "x")]⟩
    ["repo"]
    (fun p => ⟨String.intercalate "/" p, [], []⟩)
    (.obj [("plugins", .arr
      [.obj [("name", .str "a"), ("source", .str "wbs/ok")],
       .obj [("name", .str "b"), ("source", .str "missing")],
       .obj [("name", .str "c")]])])
    [.obj [("name", .str "a"), ("source", .str "wbs/ok")],
     .obj [("name", .str "b"), ("source", .str "missing")],
     .obj [("name", .str "c")]]
    (by decide) rfl (by intro hcon; cases hcon) rfl rfl
    (by
      intro p hp
      simp only [List.mem_cons, List.not_mem_nil, or_false] at hp
      rcases hp with h | h | h <;> subst h <;> rfl)
    (by
      intro p hp hc
      simp only [List.mem_cons, List.not_mem_nil, or_false] at hp
      rcases hp with h | h | h <;> subst h
      · exact ⟨"wbs/ok", rfl⟩
      · exact ⟨"missing", rfl⟩
      · exact absurd hc (by decide))
  exact h.1.trans (by rfl)

theorem mcpEntryErrs_eq_nil (ctx : String) (kv : String × JVal) :
    mcpEntryErrs ctx kv = [] ↔ McpEntryOkP kv := by
  obtain ⟨n, c⟩ := kv
  cases c with
  | obj cfg =>
    unfold mcpEntryErrs
    dsimp only
    cases hc : cfg.any (fun f => f.1 == "command") with
    | true =>
      cases hu : cfg.any (fun f => f.1 == "url") with
      | true =>
        simp only [Bool.not_true, Bool.false_and, Bool.and_self,
          Bool.false_eq_true, if_false, if_true, List.nil_append]
        constructor
        · intro h
          exact absurd h (by simp)
        · rintro ⟨cfg2, hq, hne⟩
          injection hq with hq2
          subst hq2
          rw [hc, hu] at hne
          exact absurd rfl hne
      | false =>
        simp only [Bool.not_true, Bool.not_false, Bool.false_and,
          Bool.and_false, Bool.false_eq_true, if_false, List.nil_append]
        constructor
        · intro h
          exact ⟨cfg, rfl, by rw [hc, hu]; decide⟩
        · intro h
          trivial
    | false =>
      cases hu : cfg.any (fun f => f.1 == "url") with
      | true =>
        simp only [Bool.not_true, Bool.not_false, Bool.true_and,
          Bool.and_false, Bool.false_and, Bool.false_eq_true, if_false,
          List.nil_append]
        constructor
        · intro h
          exact ⟨cfg, rfl, by rw [hc, hu]; decide⟩
        · intro h
          trivial
      | false =>
        simp only [Bool.not_false, Bool.true_and, Bool.false_and,
          Bool.false_eq_true, if_true, if_false, List.append_nil]
        constructor
        · intro h
          exact absurd h (by simp)
        · rintro ⟨cfg2, hq, hne⟩
          injection hq with hq2
          subst hq2
          rw [hc, hu] at hne
          exact absurd rfl hne
  | null =>
    constructor
    · intro h
      exact absurd h (by simp [mcpEntryErrs])
    · rintro ⟨cfg2, hq, -⟩
      exact JVal.noConfusion hq
  | bool b =>
    constructor
    · intro h
      exact absurd h (by simp [mcpEntryErrs])
    · rintro ⟨cfg2, hq, -⟩
      exact JVal.noConfusion hq
  | num m =>
    constructor
    · intro h
      exact absurd h (by simp [mcpEntryErrs])
    · rintro ⟨cfg2, hq, -⟩
      exact JVal.noConfusion hq
  | str s =>
    constructor
    · intro h
      exact absurd h (by simp [mcpEntryErrs])
    · rintro ⟨cfg2, hq, -⟩
      exact JVal.noConfusion hq
  | arr es =>
    constructor
    · intro h
      exact absurd h (by simp [mcpEntryErrs])
    · rintro ⟨cfg2, hq, -⟩
      exact JVal.noConfusion hq

theorem validateMcpServerEntries_eq_nil (ctx : String)
    (servers : List (String × JVal)) :
    validateMcpServerEntries servers ctx = [] ↔
      ∀ kv ∈ servers, McpEntryOkP kv := by
  unfold validateMcpServerEntries
  rw [List.flatMap_eq_nil_iff]
  constructor
  · intro h kv hm
    exact (mcpEntryErrs_eq_nil ctx kv).mp (h kv hm)
  · intro h kv hm
    exact (mcpEntryErrs_eq_nil ctx kv).mpr (h kv hm)

/-- C8: a declared `mcpServers` value passes the structural validator
without contributing any error iff it is either (a) an object mapping
server name to config where every config is an object with exactly one
of `command` and `url` (never both, never neither), or (b) a string
path, resolved against the `.claude-plugin` directory, to a file that
exists, parses as JSON, and contains an `mcpServers` object whose
entries meet the same per-entry rule; every other shape (`null`, array,
number, boolean, missing file, unparseable file, JSON without an
`mcpServers` object) contributes at least one diagnostic. -/
theorem mcpServers_accepted_iff (fs : FS) (wbPath : List String)
    (relPath : String) (v : JVal) :
    mcpServersErrors fs wbPath relPath (some v) = [] ↔
      McpAccepted fs wbPath v := by
  cases v with
  | null =>
    constructor
    · intro h
      exact absurd h (by simp [mcpServersErrors])
    · rintro (⟨sv, hq, -⟩ | ⟨s2, mj, sv, hq, -⟩) <;> exact JVal.noConfusion hq
  | bool b =>
    constructor
    · intro h
      exact absurd h (by simp [mcpServersErrors])
    · rintro (⟨sv, hq, -⟩ | ⟨s2, mj, sv, hq, -⟩) <;> exact JVal.noConfusion hq
  | num m =>
    constructor
    · intro h
      exact absurd h (by simp [mcpServersErrors])
    · rintro (⟨sv, hq, -⟩ | ⟨s2, mj, sv, hq, -⟩) <;> exact JVal.noConfusion hq
  | arr es =>
    constructor
    · intro h
      exact absurd h (by simp [mcpServersErrors])
    · rintro (⟨sv, hq, -⟩ | ⟨s2, mj, sv, hq, -⟩) <;> exact JVal.noConfusion hq
  | obj servers =>
    rw [show mcpServersErrors fs wbPath relPath (some (.obj servers)) =
      validateMcpServerEntries servers (relPath ++ "/plugin.json") from rfl]
    rw [validateMcpServerEntries_eq_nil]
    constructor
    · intro h
      exact Or.inl ⟨servers, rfl, h⟩
    · rintro (⟨sv, hq, hall⟩ | ⟨s2, mj, sv, hq, -⟩)
      · injection hq with hq2
        subst hq2
        exact hall
      · exact JVal.noConfusion hq
  | str s =>
    unfold mcpServersErrors
    dsimp only
    cases hex : existsSyncF fs (resolvePath (wbPath ++ [".claude-plugin"]) s) with
    | false =>
      simp only [hex, Bool.not_false, if_true]
      constructor
      · intro h
        exact absurd h (by simp)
      · rintro (⟨sv, hq, -⟩ | ⟨s2, mj, sv, hq, hex2, -⟩)
        · exact JVal.noConfusion hq
        · injection hq with hq2
          subst hq2
          rw [hex] at hex2
          exact Bool.noConfusion hex2
    | true =>
      simp only [hex, Bool.not_true, Bool.false_eq_true, if_false]
      cases hrd : readFileF fs (resolvePath (wbPath ++ [".claude-plugin"]) s) with
      | none =>
        constructor
        · intro h
          simp at h
        · rintro (⟨sv, hq, -⟩ | ⟨s2, mj, sv, hq, -, hrd2, -⟩)
          · exact JVal.noConfusion hq
          · injection hq with hq2
            subst hq2
            rw [hrd] at hrd2
            exact Option.noConfusion hrd2
      | some fd =>
        cases fd with
        | text t =>
          constructor
          · intro h
            simp at h
          · rintro (⟨sv, hq, -⟩ | ⟨s2, mj, sv, hq, -, hrd2, -⟩)
            · exact JVal.noConfusion hq
            · injection hq with hq2
              subst hq2
              rw [hrd] at hrd2
              injection hrd2 with h3
              exact FileData.noConfusion h3
        | json j =>
          cases j with
          | null =>
            constructor
            · intro h
              simp at h
            · rintro (⟨sv, hq, -⟩ | ⟨s2, mj, sv, hq, -, hrd2, hg2, -⟩)
              · exact JVal.noConfusion hq
              · injection hq with hq2
                subst hq2
                rw [hrd] at hrd2
                injection hrd2 with h3
                injection h3 with h4
                subst h4
                simp [jGet] at hg2
          | bool b2 =>
            constructor
            · intro h
              simp [jGet] at h
            · rintro (⟨sv, hq, -⟩ | ⟨s2, mj, sv, hq, -, hrd2, hg2, -⟩)
              · exact JVal.noConfusion hq
              · injection hq with hq2
                subst hq2
                rw [hrd] at hrd2
                injection hrd2 with h3
                injection h3 with h4
                subst h4
                simp [jGet] at hg2
          | num m2 =>
            constructor
            · intro h
              simp [jGet] at h
            · rintro (⟨sv, hq, -⟩ | ⟨s2, mj, sv, hq, -, hrd2, hg2, -⟩)
              · exact JVal.noConfusion hq
              · injection hq with hq2
                subst hq2
                rw [hrd] at hrd2
                injection hrd2 with h3
                injection h3 with h4
                subst h4
                simp [jGet] at hg2
          | str t2 =>
            constructor
            · intro h
              simp [jGet] at h
            · rintro (⟨sv, hq, -⟩ | ⟨s2, mj, sv, hq, -, hrd2, hg2, -⟩)
              · exact JVal.noConfusion hq
              · injection hq with hq2
                subst hq2
                rw [hrd] at hrd2
                injection hrd2 with h3
                injection h3 with h4
                subst h4
                simp [jGet] at hg2
          | arr es2 =>
            constructor
            · intro h
              simp [jGet] at h
            · rintro (⟨sv, hq, -⟩ | ⟨s2, mj, sv, hq, -, hrd2, hg2, -⟩)
              · exact JVal.noConfusion hq
              · injection hq with hq2
                subst hq2
                rw [hrd] at hrd2
                injection hrd2 with h3
                injection h3 with h4
                subst h4
                simp [jGet] at hg2
          | obj flds =>
            dsimp only
            cases hg : jGet (JVal.obj flds) "mcpServers" with
            | none =>
              constructor
              · intro h
                simp at h
              · rintro (⟨sv, hq, -⟩ | ⟨s2, mj, sv, hq, -, hrd2, hg2, -⟩)
                · exact JVal.noConfusion hq
                · injection hq with hq2
                  subst hq2
                  rw [hrd] at hrd2
                  injection hrd2 with h3
                  injection h3 with h4
                  subst h4
                  rw [hg] at hg2
                  exact Option.noConfusion hg2
            | some u =>
              cases u with
              | obj sv0 =>
                rw [show (match some (JVal.obj sv0) with
                  | some (.obj servers) =>
                    validateMcpServerEntries servers (relPath ++ "/" ++ s)
                  | _ => [relPath ++ ": " ++ s ++
                    " must contain an \"mcpServers\" object"]) =
                  validateMcpServerEntries sv0 (relPath ++ "/" ++ s) from rfl]
                rw [validateMcpServerEntries_eq_nil]
                constructor
                · intro h
                  exact Or.inr ⟨s, .obj flds, sv0, rfl, hex, hrd, hg, h⟩
                · rintro (⟨sv, hq, -⟩ | ⟨s2, mj, sv, hq, -, hrd2, hg2, hall⟩)
                  · exact JVal.noConfusion hq
                  · injection hq with hq2
                    subst hq2
                    rw [hrd] at hrd2
                    injection hrd2 with h3
                    injection h3 with h4
                    subst h4
                    rw [hg] at hg2
                    injection hg2 with h5
                    injection h5 with h6
                    subst h6
                    exact hall
              | null =>
                constructor
                · intro h
                  simp at h
                · rintro (⟨sv, hq, -⟩ | ⟨s2, mj, sv, hq, -, hrd2, hg2, -⟩)
                  · exact JVal.noConfusion hq
                  · injection hq with hq2
                    subst hq2
                    rw [hrd] at hrd2
                    injection hrd2 with h3
                    injection h3 with h4
                    subst h4
                    rw [hg] at hg2
                    injection hg2 with h5
                    exact JVal.noConfusion h5
              | bool b3 =>
                constructor
                · intro h
                  simp at h
                · rintro (⟨sv, hq, -⟩ | ⟨s2, mj, sv, hq, -, hrd2, hg2, -⟩)
                  · exact JVal.noConfusion hq
                  · injection hq with hq2
                    subst hq2
                    rw [hrd] at hrd2
                    injection hrd2 with h3
                    injection h3 with h4
                    subst h4
                    rw [hg] at hg2
                    injection hg2 with h5
                    exact JVal.noConfusion h5
              | num m3 =>
                constructor
                · intro h
                  simp at h
                · rintro (⟨sv, hq, -⟩ | ⟨s2, mj, sv, hq, -, hrd2, hg2, -⟩)
                  · exact JVal.noConfusion hq
                  · injection hq with hq2
                    subst hq2
                    rw [hrd] at hrd2
                    injection hrd2 with h3
                    injection h3 with h4
                    subst h4
                    rw [hg] at hg2
                    injection hg2 with h5
                    exact JVal.noConfusion h5
              | str t3 =>
                constructor
                · intro h
                  simp at h
                · rintro (⟨sv, hq, -⟩ | ⟨s2, mj, sv, hq, -, hrd2, hg2, -⟩)
                  · exact JVal.noConfusion hq
                  · injection hq with hq2
                    subst hq2
                    rw [hrd] at hrd2
                    injection hrd2 with h3
                    injection h3 with h4
                    subst h4
                    rw [hg] at hg2
                    injection hg2 with h5
                    exact JVal.noConfusion h5
              | arr es3 =>
                constructor
                · intro h
                  simp at h
                · rintro (⟨sv, hq, -⟩ | ⟨s2, mj, sv, hq, -, hrd2, hg2, -⟩)
                  · exact JVal.noConfusion hq
                  · injection hq with hq2
                    subst hq2
                    rw [hrd] at hrd2
                    injection hrd2 with h3
                    injection h3 with h4
                    subst h4
                    rw [hg] at hg2
                    injection hg2 with h5
                    exact JVal.noConfusion h5

end Agonda
